import Mathlib

set_option linter.unusedVariables false

/-!
Verification development for the lp2p unstructured peer-to-peer library.

The JavaScript sources are shallowly embedded:
* JS numbers that only ever hold integers are `Nat`/`Int`; JS numbers that
  result from `/` (rates, ratios) are `ℚ` (exact rational division models the
  float division performed by the source on the small operands involved).
* A JS `Map` is an insertion-ordered association list, with `Map.set`
  replacing the value of an existing key in place.
* Stateful classes become state records; each method is a function from state
  to state (plus its return value).  Calls into the transport are modelled by
  passing the transport's outcome as an explicit argument.
* Code that can throw returns `Except`/`Option`; mutations performed before a
  throw are preserved in the returned state, as with a real JS exception.
-/

namespace Lp2p

/-- Modelled from the spec: `src/disconnect_status_codes.js` is not among the
provided sources (only its callers are); the spec names the reserved codes
(`1000` intentional, `FORBIDDEN_CONNECTION` for ban, `FAILED_TO_RESPOND` for
RPC timeout, `EVICTED_PEER_CODE` for capacity) without fixing the non-1000
numbers, so those are represented here as distinct named constants. -/
def INTENTIONAL_DISCONNECT_STATUS_CODE : Nat := 1000

/-- Modelled from the spec: ban disconnect code (see
`INTENTIONAL_DISCONNECT_STATUS_CODE`). -/
def FORBIDDEN_CONNECTION : Nat := 4403

/-- Modelled from the spec: ban disconnect reason string. -/
def FORBIDDEN_CONNECTION_REASON : String := "Forbidden connection"

/-- Modelled from the spec: RPC-timeout disconnect code. -/
def FAILED_TO_RESPOND : Nat := 4002

/-- Modelled from the spec: RPC-timeout disconnect reason string. -/
def FAILED_TO_RESPOND_REASON : String := "Failed to respond"

/-- Modelled from the spec: eviction disconnect code. -/
def EVICTED_PEER_CODE : Nat := 4418

/-- RATE_NORMALIZATION_FACTOR from src/peer/base.js. -/
def RATE_NORMALIZATION_FACTOR : Nat := 1000

/-- DEFAULT_REPUTATION_SCORE from src/peer/base.js. -/
def DEFAULT_REPUTATION_SCORE : Int := 100

/-- Lookup in an insertion-ordered association list (JS `Map.get`). -/
def assocGet {α : Type} (k : String) : List (String × α) → Option α
  | [] => none
  | (k', v) :: t => if k' = k then some v else assocGet k t

/-- Insert/update in an insertion-ordered association list (JS `Map.set`):
an existing key keeps its position and gets the new value, a new key is
appended at the end. -/
def assocSet {α : Type} (k : String) (v : α) : List (String × α) → List (String × α)
  | [] => [(k, v)]
  | (k', v') :: t => if k' = k then (k, v) :: t else (k', v') :: assocSet k v t

/-- Key-membership test in an association list (JS `Map.has`). -/
def assocHas {α : Type} (k : String) (m : List (String × α)) : Bool :=
  (assocGet k m).isSome

/-- Deletion from an association list (JS `Map.delete`), removing every entry
with the given key. -/
def assocDelete {α : Type} (k : String) : List (String × α) → List (String × α)
  | [] => []
  | (k', v) :: t => if k' = k then assocDelete k t else (k', v) :: assocDelete k t

/-- Connection states of a peer session (ConnectionState in src/peer/base.js). -/
inductive ConnectionState where
  | CONNECTING
  | OPEN
  | CLOSED
deriving Repr, DecidableEq

/-- Transport socket state as observed through `socket.state === socket.OPEN`;
`closedWith` records the `(code, reason)` of a local `socket.disconnect` call. -/
inductive SockSt where
  | sockOpen
  | sockClosed
deriving Repr, DecidableEq

/-- A transport socket owned by a peer session. -/
structure Socket where
  st : SockSt
  closedWith : Option (Nat × String) := none
deriving Repr, DecidableEq

/-- Productivity counters of a session (DEFAULT_PRODUCTIVITY shape in
src/peer/base.js). -/
structure Productivity where
  requestCounter : Nat
  responseCounter : Nat
  responseRate : ℚ
  lastResponded : Nat
deriving Repr, DecidableEq

/-- DEFAULT_PRODUCTIVITY from src/peer/base.js. -/
def DEFAULT_PRODUCTIVITY : Productivity :=
  { requestCounter := 0, responseCounter := 0, responseRate := 0, lastResponded := 0 }

/-- Events emitted by a peer session that this development observes. -/
inductive PeerEvent where
  | banPeer (peerId : String)
deriving Repr, DecidableEq

/-- Per-session configuration snapshot (the `peerConfig` fields used by the
modelled methods of class Peer). -/
structure PeerConfig where
  rateCalculationInterval : Nat
  wsMaxMessageRate : ℚ
  wsMaxMessageRatePenalty : Int
deriving Repr, DecidableEq

/-- State of one peer session (the mutable fields of class Peer in
src/peer/base.js used by the modelled methods). -/
structure PeerState where
  id : String
  ipAddress : String
  wsPort : Nat
  active : Bool
  height : Nat
  reputation : Int
  socket : Option Socket
  wsMessageCount : Nat
  wsMessageRate : ℚ
  rateInterval : Nat
  rpcCounter : List (String × Nat)
  rpcRates : List (String × ℚ)
  messageCounter : List (String × Nat)
  messageRates : List (String × ℚ)
  productivity : Productivity
  peerConfig : PeerConfig
  connectTime : Nat
  counterResetActive : Bool
  productivityResetActive : Bool
  events : List PeerEvent
deriving Repr, DecidableEq

namespace Peer

/-- Fresh session state as built by the Peer constructor (src/peer/base.js);
`id` is passed explicitly here, the pool-level wrapper computes it from the
peer info exactly as `getPeerIdFromPeerInfo` does. -/
def mkState (id : String) (ipAddress : String) (wsPort : Nat) (height : Option Nat)
    (cfg : PeerConfig) (socket : Option Socket) (now : Nat) : PeerState :=
  { id := id
    ipAddress := ipAddress
    wsPort := wsPort
    active := true
    height := match height with | some h => if h ≠ 0 then h else 0 | none => 0
    reputation := DEFAULT_REPUTATION_SCORE
    socket := socket
    wsMessageCount := 0
    wsMessageRate := 0
    rateInterval := cfg.rateCalculationInterval
    rpcCounter := []
    rpcRates := []
    messageCounter := []
    messageRates := []
    productivity := DEFAULT_PRODUCTIVITY
    peerConfig := cfg
    connectTime := now
    counterResetActive := true
    productivityResetActive := true
    events := [] }

/-- The `state` getter of class Peer: OPEN iff a socket exists and its state
is the transport's OPEN, CLOSED otherwise. -/
def state (s : PeerState) : ConnectionState :=
  match s.socket with
  | some sock => if sock.st = SockSt.sockOpen then ConnectionState.OPEN else ConnectionState.CLOSED
  | none => ConnectionState.CLOSED

/-- Method `disconnect(code, reason)` of class Peer: only if still active,
clear both interval timers and disconnect the socket when one exists. -/
def disconnect (code : Nat) (reason : String) (s : PeerState) : PeerState :=
  if s.active then
    { s with
      active := false
      counterResetActive := false
      productivityResetActive := false
      socket := s.socket.map fun sock =>
        { sock with st := SockSt.sockClosed, closedWith := some (code, reason) } }
  else s

/-- Private method `_banPeer` of class Peer: emit `banPeer` with the peer id,
then disconnect with FORBIDDEN_CONNECTION. -/
def banPeer (s : PeerState) : PeerState :=
  disconnect FORBIDDEN_CONNECTION FORBIDDEN_CONNECTION_REASON
    { s with events := s.events ++ [PeerEvent.banPeer s.id] }

/-- Method `applyPenalty(penalty)` of class Peer: subtract the penalty from
the reputation and call `_banPeer` whenever the result is ≤ 0. -/
def applyPenalty (penalty : Int) (s : PeerState) : PeerState :=
  let s' := { s with reputation := s.reputation - penalty }
  if s'.reputation ≤ 0 then banPeer s' else s'

/-- Outcome of one `socket.invoke` call, supplied by the environment: either a
response body (`none` models a falsy body) or a thrown error with its `name`
and `message`. -/
inductive InvokeOutcome (β : Type) where
  | success (body : Option β)
  | failure (name : String) (message : String)
deriving Repr, DecidableEq

/-- Errors thrown by `Peer.request` as observed by the caller. -/
inductive RequestError where
  | socketDoesNotExist
  | rpcTimeout (message : String) (peerId : String)
  | rpcResponse (message : String) (peerId : String)
deriving Repr, DecidableEq

/-- The template string used twice inside `request`. -/
def addressPort (s : PeerState) : String :=
  s.ipAddress ++ ":" ++ toString s.wsPort

/-- Method `request(packet)` of class Peer (src/peer/base.js lines 336-382):
increment `requestCounter`, throw if there is no socket, invoke the transport
(its outcome is the `outcome` argument); a TimeoutError disconnects with
FAILED_TO_RESPOND and surfaces as RPCTimeoutError, any other transport error
surfaces as RPCResponseError without disconnecting; a truthy body updates the
productivity fields and is returned, a falsy body surfaces as
RPCResponseError. -/
def request {β : Type} (procedure : String) (outcome : InvokeOutcome β) (now : Nat)
    (s : PeerState) : Except RequestError β × PeerState :=
  let s := { s with productivity.requestCounter := s.productivity.requestCounter + 1 }
  match s.socket with
  | none => (Except.error RequestError.socketDoesNotExist, s)
  | some _ =>
    match outcome with
    | InvokeOutcome.failure name msg =>
      if name = "TimeoutError" then
        let s := disconnect FAILED_TO_RESPOND FAILED_TO_RESPOND_REASON s
        (Except.error (RequestError.rpcTimeout msg (addressPort s)), s)
      else
        (Except.error (RequestError.rpcResponse msg (addressPort s)), s)
    | InvokeOutcome.success none =>
      (Except.error (RequestError.rpcResponse
        ("Failed to handle response for procedure " ++ procedure) (addressPort s)), s)
    | InvokeOutcome.success (some body) =>
      let p := s.productivity
      let p := { p with
        lastResponded := now
        responseCounter := p.responseCounter + 1 }
      let p := { p with
        responseRate := (p.responseCounter : ℚ) / (p.requestCounter : ℚ) }
      (Except.ok body, { s with productivity := p })

/-- Body of the `_counterResetInterval` timer installed by the Peer
constructor (src/peer/base.js lines 104-132): compute and store
`wsMessageRate`, zero `wsMessageCount`; if the rate exceeds
`wsMaxMessageRate`, apply the configured penalty and return early; otherwise
rotate `rpcCounter` into `rpcRates` and `messageCounter` into `messageRates`
(dividing each count by the interval) and zero both counters. -/
def counterResetTick (s : PeerState) : PeerState :=
  let rate : ℚ := (s.wsMessageCount * RATE_NORMALIZATION_FACTOR : ℚ) / (s.rateInterval : ℚ)
  let s := { s with wsMessageRate := rate, wsMessageCount := 0 }
  if s.wsMessageRate > s.peerConfig.wsMaxMessageRate then
    applyPenalty s.peerConfig.wsMaxMessageRatePenalty s
  else
    { s with
      rpcRates := s.rpcCounter.map fun kv => (kv.1, (kv.2 : ℚ) / (s.rateInterval : ℚ))
      rpcCounter := []
      messageRates := s.messageCounter.map fun kv => (kv.1, (kv.2 : ℚ) / (s.rateInterval : ℚ))
      messageCounter := [] }

/-- Number of `banPeer` events recorded so far in a session's event log. -/
def banCount (s : PeerState) : Nat :=
  s.events.countP fun e => match e with | PeerEvent.banPeer _ => true

/-- Specification of how many `banPeer` emissions a list of consecutive
`applyPenalty` calls produces when starting from reputation `rep`: one per
call whose resulting reputation is ≤ 0. -/
def banSpec (rep : Int) : List Int → Nat
  | [] => 0
  | p :: t => (if rep - p ≤ 0 then 1 else 0) + banSpec (rep - p) t

end Peer

/-!
Address utilities (src/utils.js).  JS strings are embedded as their character
lists; `String.split`, `String.match`, `parseInt`, `Number.toString(16)` and
the `Buffer` byte operations are modelled by the character-list functions
below.  `net.isIPv4`/`net.isIPv6` are external (Node's `net` module); they are
modelled structurally after Node's address grammars (zone indices such as
`fe80::1%eth0` are not modelled).  JS code paths that throw `RangeError`
(`':'.repeat(negativeCount)`, `'0'.repeat(negativeCount)`,
`writeUInt8`/`writeUInt32BE` out of range) are modelled as `none`/`error`
results.
-/

/-- Number of occurrences of a character in a character list
(JS `(s.match(/c/g) || []).length`). -/
def countChar (c : Char) : List Char → Nat
  | [] => 0
  | a :: t => (if a = c then 1 else 0) + countChar c t

/-- Split a character list on a separator character (JS `String.split`):
always returns one part more than the number of separators. -/
def splitChar (c : Char) : List Char → List (List Char)
  | [] => [[]]
  | a :: t =>
    if a = c then [] :: splitChar c t
    else
      match splitChar c t with
      | [] => [[a]]
      | h :: r => (a :: h) :: r

/-- Join character lists with a separator character (JS `Array.join`). -/
def joinChar (c : Char) : List (List Char) → List Char
  | [] => []
  | [p] => p
  | p :: t => p ++ c :: joinChar c t

/-- Replace every non-overlapping occurrence of `"::"` (leftmost first) by
`repl` (JS `String.replace` with the global regex `/::/g`; the replacement is
not rescanned). -/
def replaceDC (repl : List Char) : List Char → List Char
  | ':' :: ':' :: t => repl ++ replaceDC repl t
  | a :: t => a :: replaceDC repl t
  | [] => []

/-- Number of non-overlapping `"::"` occurrences, counted exactly as
`replaceDC` consumes them. -/
def occDC : List Char → Nat
  | ':' :: ':' :: t => 1 + occDC t
  | _ :: t => occDC t
  | [] => 0

/-- A list of non-empty colon-free groups (the shape of the parts of a
`":"`-split between separators). -/
def colonGroups (A : List (List Char)) : Prop :=
  ∀ p ∈ A, p ≠ [] ∧ ∀ x ∈ p, x ≠ ':'

/-- Hexadecimal digit test (both cases, as JS `parseInt(_, 16)` accepts),
stated on ASCII code points. -/
def isHexDigit (c : Char) : Bool :=
  (48 ≤ c.toNat && c.toNat ≤ 57) || (97 ≤ c.toNat && c.toNat ≤ 102) ||
    (65 ≤ c.toNat && c.toNat ≤ 70)

/-- Value of a hexadecimal digit, stated on ASCII code points. -/
def hexVal (c : Char) : Nat :=
  if 48 ≤ c.toNat && c.toNat ≤ 57 then c.toNat - 48
  else if 97 ≤ c.toNat && c.toNat ≤ 102 then c.toNat - 97 + 10
  else c.toNat - 65 + 10

/-- Accumulate a hexadecimal digit run into a number. -/
def hexDigitsToNat (ds : List Char) : Nat :=
  ds.foldl (fun a c => a * 16 + hexVal c) 0

/-- Accumulate a decimal digit run into a number. -/
def decDigitsToNat (ds : List Char) : Nat :=
  ds.foldl (fun a c => a * 10 + (c.toNat - '0'.toNat)) 0

/-- The optional-sign step shared by JS `parseInt`: strip one leading `-` or
`+` and record whether the value is negated. -/
def stripSign : List Char → Bool × List Char
  | '-' :: t => (true, t)
  | '+' :: t => (false, t)
  | t => (false, t)

/-- The optional `0x`/`0X` prefix step of JS `parseInt(_, 16)`. -/
def strip0x : List Char → List Char
  | '0' :: 'x' :: t => t
  | '0' :: 'X' :: t => t
  | t => t

/-- JS `parseInt(s, 16)`: optional sign, optional `0x`/`0X` prefix, then the
maximal run of hexadecimal digits; `none` models `NaN` (no digits).  Leading
whitespace is not modelled (no caller passes whitespace). -/
def parseIntHex (l : List Char) : Option Int :=
  let signed := stripSign l
  let ds := (strip0x signed.2).takeWhile isHexDigit
  if ds.isEmpty then none
  else some (if signed.1 then -(hexDigitsToNat ds : Int) else (hexDigitsToNat ds : Int))

/-- JS `parseInt(s)` with decimal input: optional sign then the maximal run of
decimal digits; `none` models `NaN`. -/
def jsParseIntDec (l : List Char) : Option Int :=
  let signed := stripSign l
  let ds := signed.2.takeWhile Char.isDigit
  if ds.isEmpty then none
  else some (if signed.1 then -(decDigitsToNat ds : Int) else (decDigitsToNat ds : Int))

/-- Lowercase hexadecimal digit character. -/
def hexChar : Nat → Char
  | 0 => '0'
  | 1 => '1'
  | 2 => '2'
  | 3 => '3'
  | 4 => '4'
  | 5 => '5'
  | 6 => '6'
  | 7 => '7'
  | 8 => '8'
  | 9 => '9'
  | 10 => 'a'
  | 11 => 'b'
  | 12 => 'c'
  | 13 => 'd'
  | 14 => 'e'
  | 15 => 'f'
  | _ => '?'

/-- Fuel-indexed digit extraction behind `natToHex`; the fuel only bounds the
recursion depth (any fuel at least the argument gives the same digits), so the
definition stays structurally recursive. -/
def natToHexAux : Nat → Nat → List Char
  | 0, n => [hexChar n]
  | fuel + 1, n =>
    if n < 16 then [hexChar n]
    else natToHexAux fuel (n / 16) ++ [hexChar (n % 16)]

/-- Minimal lowercase hexadecimal representation of a natural number
(JS `Number.prototype.toString(16)` for non-negative integers). -/
def natToHex (n : Nat) : List Char :=
  natToHexAux n n

/-- JS `i.toString(16)` for integers (negative values get a sign). -/
def intToHex (i : Int) : List Char :=
  if i < 0 then '-' :: natToHex (-i).toNat else natToHex i.toNat

/-- The body of the `map` inside `normalizeIPv6Address`: an empty group
becomes `"0"`, any other group becomes `parseInt(part, 16).toString(16)`
(which is `"NaN"` when no hexadecimal prefix exists). -/
def normalizePart (p : List Char) : List Char :=
  if p.isEmpty then ['0']
  else
    match parseIntHex p with
    | none => ['N', 'a', 'N']
    | some i => intToHex i

/-- Function `normalizeIPv6Address` of src/utils.js: count the colons, expand
every `"::"` into `"::" ++ ":".repeat(7 - colonCount)`, split on `":"`, map
each group through `normalizePart` and re-join.  When the address has more
than 7 colons, `':'.repeat(negative)` throws `RangeError` in JS, modelled as
`none`. -/
def normalizeIPv6Address (ipv6Address : String) : Option String :=
  let l := ipv6Address.data
  let colonCount := countChar ':' l
  if 7 < colonCount then none
  else
    let repl := ':' :: ':' :: List.replicate (7 - colonCount) ':'
    let full := replaceDC repl l
    some (String.mk (joinChar ':' ((splitChar ':' full).map normalizePart)))

/-- One dotted-quad segment per Node's `net.isIPv4` grammar: 1-3 decimal
digits, value ≤ 255, no leading zero on multi-digit segments. -/
def isV4Seg (p : List Char) : Bool :=
  !p.isEmpty && p.all Char.isDigit && decide (p.length ≤ 3) &&
    (decide (p.length = 1) || !(decide (p.headD 'x' = '0'))) &&
    decide (decDigitsToNat p ≤ 255)

/-- Dotted-quad test on a character list (Node's `net.isIPv4` grammar). -/
def isV4Quad (l : List Char) : Bool :=
  let parts := splitChar '.' l
  decide (parts.length = 4) && parts.all isV4Seg

/-- Node's `net.isIPv4` (external), modelled structurally. -/
def isIPv4 (s : String) : Bool :=
  isV4Quad s.data

/-- An IPv6 hexadecimal group: 1-4 hexadecimal digits. -/
def isHexGroup (p : List Char) : Bool :=
  !p.isEmpty && decide (p.length ≤ 4) && p.all isHexDigit

/-- Group sequence of a compressed IPv6 form: every group is a hexadecimal
group except that the textually last one may instead be a dotted quad; the
total group count (a quad counting for two) is at most 7. -/
def compressedGroupsOk (gs : List (List Char)) : Bool :=
  match gs.getLast? with
  | none => true
  | some g =>
    gs.dropLast.all isHexGroup &&
      ((isV4Quad g && decide (gs.length + 1 ≤ 7)) ||
        (isHexGroup g && decide (gs.length ≤ 7)))

/-- Bare-`"::"` compressed shape: the split is exactly three empty parts. -/
def cpBare (ps : List (List Char)) : Bool :=
  ps == [[], [], []]

/-- Leading-`"::"` compressed shape: two leading empty parts, the rest
non-empty and a valid group sequence. -/
def cpLeading (ps : List (List Char)) : Bool :=
  match ps with
  | [] :: [] :: rest =>
    !rest.isEmpty && rest.all (fun p => !p.isEmpty) && compressedGroupsOk rest
  | _ => false

/-- Trailing-`"::"` compressed shape: two trailing empty parts, the front
non-empty hexadecimal groups (no dotted quad may precede a trailing `"::"`). -/
def cpTrailing (ps : List (List Char)) : Bool :=
  match ps.reverse with
  | [] :: [] :: frontRev =>
    !frontRev.isEmpty && frontRev.all (fun p => !p.isEmpty) &&
      frontRev.reverse.all isHexGroup && decide (frontRev.length ≤ 7)
  | _ => false

/-- Inner-`"::"` compressed shape: one empty part strictly inside, all other
parts non-empty and together a valid group sequence. -/
def cpMiddle (ps : List (List Char)) : Bool :=
  match ps.dropWhile (fun p => !p.isEmpty) with
  | [] :: back =>
    !(ps.takeWhile fun p => !p.isEmpty).isEmpty && !back.isEmpty &&
      back.all (fun p => !p.isEmpty) &&
      compressedGroupsOk ((ps.takeWhile fun p => !p.isEmpty) ++ back)
  | _ => false

/-- Compressed (`"::"`-containing) IPv6 textual forms, stated on the result
of splitting on `":"`: exactly one of the four shapes produced by one `"::"`
(the bare `"::"` giving three empty parts; a leading `"::"` giving two
leading empty parts; a trailing `"::"` giving two trailing empty parts,
after which no dotted quad may appear; or one inner empty part), with all
remaining parts non-empty and forming a valid group sequence. -/
def compressedParts (ps : List (List Char)) : Bool :=
  cpBare ps || cpLeading ps || cpTrailing ps || cpMiddle ps

/-- Valid IPv6 textual forms on the parts of a `":"`-split: 8 hexadecimal
groups, or 6 hexadecimal groups plus a trailing dotted quad, or a compressed
form. -/
def isIPv6Parts (ps : List (List Char)) : Bool :=
  (decide (ps.length = 8) && ps.all isHexGroup) ||
  (decide (ps.length = 7) && (ps.take 6).all isHexGroup &&
    (match ps.getLast? with
     | some q => isV4Quad q
     | none => false)) ||
  compressedParts ps

/-- Node's `net.isIPv6` (external), modelled structurally after Node's IPv6
grammar (zone indices not modelled). -/
def isIPv6 (s : String) : Bool :=
  isIPv6Parts (splitChar ':' s.data)

/-- Take 1-3 decimal digits from the front of a reversed character list:
the maximal digit run, rejected when empty or longer than 3. -/
def takeDigits13Rev (l : List Char) : Option (List Char × List Char) :=
  let ds := l.takeWhile Char.isDigit
  if ds.isEmpty || decide (3 < ds.length) then none
  else some (ds, l.drop ds.length)

/-- The match against `IPV6_HYBRID_REGEX`
(`/ffff:([0-9]{1,3}[.][0-9]{1,3}[.][0-9]{1,3}[.][0-9]{1,3})$/`) of
src/utils.js, returning the captured dotted quad: the address must end with
`"ffff:"` immediately followed by four dot-separated runs of 1-3 decimal
digits.  Implemented by parsing the string from its end. -/
def hybridCapture (s : String) : Option String :=
  match takeDigits13Rev s.data.reverse with
  | none => none
  | some (d4, r) =>
    match r with
    | '.' :: r =>
      match takeDigits13Rev r with
      | none => none
      | some (d3, r) =>
        match r with
        | '.' :: r =>
          match takeDigits13Rev r with
          | none => none
          | some (d2, r) =>
            match r with
            | '.' :: r =>
              match takeDigits13Rev r with
              | none => none
              | some (d1, r) =>
                match r with
                | ':' :: 'f' :: 'f' :: 'f' :: 'f' :: _ =>
                  some (String.mk (d1.reverse ++ '.' ::
                    d2.reverse ++ '.' :: d3.reverse ++ '.' :: d4.reverse))
                | _ => none
            | _ => none
        | _ => none
    | _ => none

/-- PROTOCOL_IPV4 from src/utils.js. -/
def PROTOCOL_IPV4 : String := "IPv4"

/-- PROTOCOL_IPV6 from src/utils.js. -/
def PROTOCOL_IPV6 : String := "IPv6"

/-- Result record of `normalizeAddress`. -/
structure NormalizedAddress where
  protocol : String
  address : String
deriving Repr, DecidableEq

/-- Function `normalizeAddress` of src/utils.js: an IPv6 address matching the
hybrid pattern yields the captured IPv4 dotted quad; any other IPv6 address is
normalized; everything else passes through labelled IPv4.  `none` models the
`RangeError` propagated out of `normalizeIPv6Address`. -/
def normalizeAddress (address : String) : Option NormalizedAddress :=
  if isIPv6 address then
    match hybridCapture address with
    | some v4 => some { protocol := PROTOCOL_IPV4, address := v4 }
    | none =>
      (normalizeIPv6Address address).map fun na =>
        { protocol := PROTOCOL_IPV6, address := na }
  else
    some { protocol := PROTOCOL_IPV4, address := address }

/-- Network classification constants (NETWORK in src/utils.js). -/
inductive Network where
  | NET_IPV4
  | NET_IPV6
  | NET_PRIVATE
  | NET_LOCAL
  | NET_OTHER
deriving Repr, DecidableEq

/-- The numeric code written into the bucket-hash byte string for each
network class. -/
def Network.code : Network → Nat
  | Network.NET_IPV4 => 0
  | Network.NET_IPV6 => 1
  | Network.NET_PRIVATE => 2
  | Network.NET_LOCAL => 3
  | Network.NET_OTHER => 4

/-- Function `isPrivate` of src/utils.js. -/
def isPrivate (address : String) : Bool :=
  if isIPv4 address then
    let parts := splitChar '.' address.data
    let a1 := jsParseIntDec (parts.getD 0 [])
    let a2 := jsParseIntDec (parts.getD 1 [])
    a1 == some 10 ||
      (a1 == some 172 &&
        (match a2 with
         | some v => decide (16 ≤ v) && decide (v ≤ 31)
         | none => false))
  else
    let firstPart := (splitChar ':' address.data).headD []
    let pre := firstPart.take 2
    decide (pre = ['f', 'c']) || decide (pre = ['f', 'd'])

/-- Function `isLocal` of src/utils.js; `none` models the `RangeError`
propagated out of `normalizeIPv6Address` on a non-IPv4 address with more than
7 colons. -/
def isLocal (address : String) : Option Bool :=
  if isIPv4 address then
    let a1 := jsParseIntDec ((splitChar '.' address.data).getD 0 [])
    some (a1 == some 127 || a1 == some 0)
  else
    (normalizeIPv6Address address).map (· = "0:0:0:0:0:0:0:1")

/-- Function `getNetwork` of src/utils.js; `none` models a propagated
`RangeError`. -/
def getNetwork (address : String) : Option Network :=
  match isLocal address with
  | none => none
  | some true => some Network.NET_LOCAL
  | some false =>
    if isPrivate address then some Network.NET_PRIVATE
    else if isIPv4 address then some Network.NET_IPV4
    else if isIPv6 address then some Network.NET_IPV6
    else some Network.NET_OTHER

/-- Decode hexadecimal character pairs into bytes (Node
`Buffer.from(str, 'hex')`): decoding stops at the first invalid pair and a
trailing odd character is dropped. -/
def hexPairsToBytes : List Char → List Nat
  | c1 :: c2 :: t =>
    if isHexDigit c1 && isHexDigit c2 then (hexVal c1 * 16 + hexVal c2) :: hexPairsToBytes t
    else []
  | _ => []

/-- One group of `getIPV6Bytes`: left-pad with zeros to 4 hexadecimal digits
and hex-decode (2 bytes for a group of at most 4 digits); a group longer
than 4 makes `'0'.repeat(negative)` throw, modelled as `none`. -/
def ipv6PartToBytes (p : List Char) : Option (List Nat) :=
  if decide (4 < p.length) then none
  else some (hexPairsToBytes (List.replicate (4 - p.length) '0' ++ p))

/-- Function `getIPV6Bytes` of src/utils.js: normalize, split on `":"`,
zero-pad each group to 4 hexadecimal digits, hex-decode and concatenate. -/
def getIPV6Bytes (ipv6Address : String) : Option (List Nat) :=
  (normalizeIPv6Address ipv6Address).bind fun normalized =>
    (splitChar ':' normalized.data).foldr
      (fun p acc => acc.bind fun bytes => (ipv6PartToBytes p).map (· ++ bytes))
      (some [])

/-- Function `getIPV4Bytes` of src/utils.js: split on `"."`, `parseInt` each
part and write it as one unsigned byte (`writeUInt8` throws outside `0..255`
and on `NaN`, modelled as `none`). -/
def getIPV4Bytes (ipv4Address : String) : Option (List Nat) :=
  (splitChar '.' ipv4Address.data).foldr
    (fun p acc => acc.bind fun bytes =>
      match jsParseIntDec p with
      | some v => if 0 ≤ v && v ≤ 255 then some (v.toNat :: bytes) else none
      | none => none)
    (some [])

/-- Big-endian 4-byte encoding of a 32-bit value (`Buffer.writeUInt32BE`). -/
def toBytes4BE (n : Nat) : List Nat :=
  [n / 2 ^ 24 % 256, n / 2 ^ 16 % 256, n / 2 ^ 8 % 256, n % 256]

/-- Big-endian read of the first 4 bytes (`Buffer.readUInt32BE(0)`). -/
def readUInt32BE (l : List Nat) : Nat :=
  l.getD 0 0 * 2 ^ 24 + l.getD 1 0 * 2 ^ 16 + l.getD 2 0 * 2 ^ 8 + l.getD 3 0

/-- PEER_TYPE from src/utils.js. -/
inductive PeerType where
  | newPeer
  | triedPeer
deriving Repr, DecidableEq

/-- Failures of `getBucketId`: the explicit unsupported-address throw, or a
propagated JS `RangeError` from byte conversion. -/
inductive BucketError where
  | unsupportedAddress
  | jsRangeError
deriving Repr, DecidableEq

/-- Function `getBucketId` of src/utils.js.  The SHA-256 primitive is external
(the spec treats it as a black-box 32-byte hash), so it is a parameter; the
`peerType` argument is destructured but never used by the source, which is
mirrored here.  The byte string hashed is
`secret(4 bytes big-endian) ++ [network code]` for LOCAL/PRIVATE networks and
`secret(4 bytes big-endian) ++ [network code] ++ addressBytes` otherwise; the
first 4 digest bytes are read big-endian and reduced modulo `bucketCount`. -/
def getBucketId (sha256 : List Nat → List Nat) (secret : Nat) (targetAddress : String)
    (peerType : PeerType) (bucketCount : Nat) : Except BucketError Nat :=
  if decide (2 ^ 32 ≤ secret) then Except.error BucketError.jsRangeError
  else
    let secretBytes := toBytes4BE secret
    match getNetwork targetAddress with
    | none => Except.error BucketError.jsRangeError
    | some network =>
      if network = Network.NET_OTHER then Except.error BucketError.unsupportedAddress
      else
        let networkBytes := [network.code]
        if network = Network.NET_LOCAL ∨ network = Network.NET_PRIVATE then
          Except.ok (readUInt32BE (sha256 (secretBytes ++ networkBytes)) % bucketCount)
        else
          let addressBytes? :=
            if network = Network.NET_IPV6 then getIPV6Bytes targetAddress
            else getIPV4Bytes targetAddress
          match addressBytes? with
          | none => Except.error BucketError.jsRangeError
          | some addressBytes =>
            Except.ok (readUInt32BE
              (sha256 (secretBytes ++ networkBytes ++ addressBytes)) % bucketCount)

/-- Address and port of a discovered peer (the `PeerInfo` fields used by the
modelled code paths). -/
structure PeerInfo where
  ipAddress : String
  wsPort : Nat
  height : Option Nat := none
deriving Repr, DecidableEq

/-- Function `getPeerIdFromPeerInfo` of src/utils.js: normalize the address
and format `"[<ip>]:<port>"` for IPv6, `"<ip>:<port>"` otherwise.  `none`
models a propagated `RangeError`. -/
def getPeerIdFromPeerInfo (peerInfo : PeerInfo) : Option String :=
  (normalizeAddress peerInfo.ipAddress).map fun na =>
    if na.protocol = PROTOCOL_IPV6 then
      "[" ++ na.address ++ "]:" ++ toString peerInfo.wsPort
    else
      na.address ++ ":" ++ toString peerInfo.wsPort

/-- Dot-presence test used to state which addresses embed a dotted quad. -/
def hasDot (s : String) : Bool :=
  s.data.contains '.'

/-- Valid IPv6 text embedding a dotted quad in full (uncompressed, no
`"::"`) form; `normalizeIPv6Address` turns such an address into a 7-group
string. -/
def embeddedV4FullForm (s : String) : Bool :=
  isIPv6 s && hasDot s && decide (occDC s.data = 0)

/-- The family of addresses on which `normalizeAddress` is not idempotent:
full-form embedded-quad IPv6 text that does not match the hybrid `ffff:`
pattern. -/
def fullFormEmbeddedV4 (s : String) : Bool :=
  embeddedV4FullForm s && (hybridCapture s).isNone

/-!
Peer pool (src/peer_pool.js).  The pool's own event emissions and its calls
into peer objects that are subsequently dropped are recorded in an explicit
event list and trace so that they remain observable.
-/

/-- Pool-level events observed by this development (`EVENT_REMOVE_PEER`). -/
inductive PoolEvent where
  | removePeer (peerId : String)
deriving Repr, DecidableEq

/-- Calls the pool makes on peer objects: handler (un)binding
(`_bindHandlersToPeer`/`_unbindHandlersFromPeer`), `peer.disconnect`, and the
fire-and-forget `_applyNodeInfoOnPeer`. -/
inductive PoolTrace where
  | bindHandlers (peerId : String)
  | unbindHandlers (peerId : String)
  | disconnectCall (peerId : String) (code : Nat) (reason : String)
  | applyNodeInfoCall (peerId : String)
deriving Repr, DecidableEq

/-- Local node information as used by `addInboundPeer`'s quota computation
(`Object.keys(nodeInfo.modules).length`). -/
structure NodeInfo where
  modules : Option (List String) := none
deriving Repr, DecidableEq

/-- Pool configuration fields used by the modelled methods. -/
structure PoolConfig where
  maxInboundConnections : Nat
  maxOutboundConnections : Nat
  peerConfig : PeerConfig
deriving Repr, DecidableEq

/-- State of a PeerPool: the two peerId-keyed session maps, the cached node
info, configuration, and the observation log. -/
structure PoolState where
  inboundPeerMap : List (String × PeerState)
  outboundPeerMap : List (String × PeerState)
  nodeInfo : Option NodeInfo
  cfg : PoolConfig
  events : List PoolEvent
  trace : List PoolTrace
deriving Repr, DecidableEq

/-- Errors thrown by pool methods: a propagated `RangeError` from peer-id
computation, or the explicit duplicate-inbound-peer throw. -/
inductive PoolError where
  | jsRangeError
  | duplicatePeer (peerId : String)
deriving Repr, DecidableEq

/-- A freshly constructed pool (empty maps, empty logs). -/
def initialPool (cfg : PoolConfig) (nodeInfo : Option NodeInfo) : PoolState :=
  { inboundPeerMap := []
    outboundPeerMap := []
    nodeInfo := nodeInfo
    cfg := cfg
    events := []
    trace := [] }

namespace PeerPool

/-- Method `removeOutboundPeer(peerId, code, reason)` of class PeerPool: when
the peer exists, disconnect it and unbind its handlers; in every case delete
the key and emit exactly one `removePeer`, returning whether a peer was
deleted. -/
def removeOutboundPeer (peerId : String) (code : Nat) (reason : String) (p : PoolState) :
    Bool × PoolState :=
  let found := assocHas peerId p.outboundPeerMap
  let p := if found then
      { p with trace := p.trace ++
          [PoolTrace.disconnectCall peerId code reason, PoolTrace.unbindHandlers peerId] }
    else p
  let p := { p with
    outboundPeerMap := assocDelete peerId p.outboundPeerMap
    events := p.events ++ [PoolEvent.removePeer peerId] }
  (found, p)

/-- Method `removeInboundPeer(peerId, code, reason)` of class PeerPool
(mirror image of `removeOutboundPeer` on the inbound map). -/
def removeInboundPeer (peerId : String) (code : Nat) (reason : String) (p : PoolState) :
    Bool × PoolState :=
  let found := assocHas peerId p.inboundPeerMap
  let p := if found then
      { p with trace := p.trace ++
          [PoolTrace.disconnectCall peerId code reason, PoolTrace.unbindHandlers peerId] }
    else p
  let p := { p with
    inboundPeerMap := assocDelete peerId p.inboundPeerMap
    events := p.events ++ [PoolEvent.removePeer peerId] }
  (found, p)

/-- Method `_evictPeer(PEER_KIND_INBOUND)` of class PeerPool.  The candidate
selection (whitelist filter, the three protection-ratio filters and the
random shuffle) is abstracted into the `choice` index over the inbound map,
because the modelled claims are insensitive to which inbound peer is chosen;
the removal itself is exactly `removeInboundPeer` with `EVICTED_PEER_CODE`,
as in the source. -/
def evictPeerInbound (choice : Nat) (p : PoolState) : PoolState :=
  if p.inboundPeerMap.length < 1 then p
  else
    match p.inboundPeerMap.get? (choice % p.inboundPeerMap.length) with
    | some (id, _) =>
      (removeInboundPeer id EVICTED_PEER_CODE ("Evicted inbound peer " ++ id) p).2
    | none => p

/-- Method `_evictPeer(PEER_KIND_OUTBOUND)` of class PeerPool, abstracting the
fixed-peer filter and shuffle into the `choice` index (see
`evictPeerInbound`); the removal is exactly `removeOutboundPeer` with
`EVICTED_PEER_CODE`. -/
def evictPeerOutbound (choice : Nat) (p : PoolState) : PoolState :=
  if p.outboundPeerMap.length < 1 then p
  else
    match p.outboundPeerMap.get? (choice % p.outboundPeerMap.length) with
    | some (id, _) =>
      (removeOutboundPeer id EVICTED_PEER_CODE ("Evicted outbound peer " ++ id) p).2
    | none => p

/-- Method `addOutboundPeer(peerId, peerInfo)` of class PeerPool: return the
existing session when `peerId` is already an outbound key; otherwise
construct an OutboundPeer (no socket yet — outbound sockets are created
lazily), insert it under its computed id, bind the pool handlers to it, and
push the cached node info when one exists. -/
def addOutboundPeer (peerId : String) (peerInfo : PeerInfo) (now : Nat) (p : PoolState) :
    Except PoolError PeerState × PoolState :=
  match assocGet peerId p.outboundPeerMap with
  | some existingPeer => (Except.ok existingPeer, p)
  | none =>
    match getPeerIdFromPeerInfo peerInfo with
    | none => (Except.error PoolError.jsRangeError, p)
    | some id =>
      let peer := Peer.mkState id peerInfo.ipAddress peerInfo.wsPort peerInfo.height
        p.cfg.peerConfig none now
      let p := { p with
        outboundPeerMap := assocSet peer.id peer p.outboundPeerMap
        trace := p.trace ++ [PoolTrace.bindHandlers peer.id] }
      let p := match p.nodeInfo with
        | some _ => { p with trace := p.trace ++ [PoolTrace.applyNodeInfoCall peer.id] }
        | none => p
      (Except.ok peer, p)

/-- Method `addInboundPeer(peerInfo, socket)` of class PeerPool: compute the
module-scaled quota, evict one inbound peer when at or above it, construct an
InboundPeer around the pre-accepted socket, throw if its id is already an
inbound key (mutations before the throw are kept), otherwise insert, bind
handlers, and push the cached node info when one exists. -/
def addInboundPeer (peerInfo : PeerInfo) (socket : Socket) (now : Nat) (choice : Nat)
    (p : PoolState) : Except PoolError PeerState × PoolState :=
  let moduleCount := match p.nodeInfo with
    | some ni =>
      match ni.modules with
      | some ms => ms.length + 1
      | none => 1
    | none => 1
  let p := if p.inboundPeerMap.length ≥ p.cfg.maxInboundConnections * moduleCount then
      evictPeerInbound choice p
    else p
  match getPeerIdFromPeerInfo peerInfo with
  | none => (Except.error PoolError.jsRangeError, p)
  | some id =>
    let peer := Peer.mkState id peerInfo.ipAddress peerInfo.wsPort peerInfo.height
      p.cfg.peerConfig (some socket) now
    if assocHas peer.id p.inboundPeerMap then
      (Except.error (PoolError.duplicatePeer peer.id), p)
    else
      let p := { p with
        inboundPeerMap := assocSet peer.id peer p.inboundPeerMap
        trace := p.trace ++ [PoolTrace.bindHandlers peer.id] }
      let p := match p.nodeInfo with
        | some _ => { p with trace := p.trace ++ [PoolTrace.applyNodeInfoCall peer.id] }
        | none => p
      (Except.ok peer, p)

/-- Pool operations quantified over in reachability statements. -/
inductive PoolOp where
  | addInbound (peerInfo : PeerInfo) (socket : Socket) (now : Nat) (choice : Nat)
  | addOutbound (peerId : String) (peerInfo : PeerInfo) (now : Nat)
  | removeInbound (peerId : String) (code : Nat) (reason : String)
  | removeOutbound (peerId : String) (code : Nat) (reason : String)
  | evictInbound (choice : Nat)
  | evictOutbound (choice : Nat)
deriving Repr, DecidableEq

/-- Apply one pool operation (discarding the returned value). -/
def applyPoolOp (p : PoolState) : PoolOp → PoolState
  | PoolOp.addInbound info sock now choice => (addInboundPeer info sock now choice p).2
  | PoolOp.addOutbound peerId info now => (addOutboundPeer peerId info now p).2
  | PoolOp.removeInbound peerId code reason => (removeInboundPeer peerId code reason p).2
  | PoolOp.removeOutbound peerId code reason => (removeOutboundPeer peerId code reason p).2
  | PoolOp.evictInbound choice => evictPeerInbound choice p
  | PoolOp.evictOutbound choice => evictPeerOutbound choice p

/-- Run a sequence of pool operations. -/
def runPoolOps (p : PoolState) (ops : List PeerPool.PoolOp) : PoolState :=
  ops.foldl applyPoolOp p

end PeerPool

/-!
Validation (src/validation.js, provided as an unnamed source file).  The
external `validator` and `semver` libraries and JS `JSON.stringify` byte
sizing are parameters of the model (`ValidationDeps`); the wire record is
modelled with its schema-relevant fields, numeric payloads carried at their
wire types (so `validator.isNumeric` on `height.toString()` always holds for
a present numeric height, including negative ones, exactly as it does in JS
for numeric wire values).
-/

/-- Wire-format peer info as received (`undefined` fields are `none`). -/
structure RawPeerInfo where
  ip : Option String := none
  wsPort : Option Int := none
  version : Option String := none
  protocolVersion : Option String := none
  os : Option String := none
  height : Option Int := none
deriving Repr, DecidableEq

/-- Sanitized peer info produced by `validatePeerInfoSchema`. -/
structure SanitizedPeerInfo where
  ipAddress : String
  wsPort : Int
  version : String
  protocolVersion : Option String
  os : String
  height : Int
deriving Repr, DecidableEq

/-- Validation failures: `InvalidPeerError` or `InvalidRPCResponseError`. -/
inductive PeerValidationError where
  | invalidPeer (message : String)
  | invalidRPCResponse (message : String)
deriving Repr, DecidableEq

/-- External dependencies of the validation module: `validator.isIP`,
`semver.valid`, and the JSON byte size `Buffer.byteLength(JSON.stringify _)`. -/
structure ValidationDeps where
  isIP : String → Bool
  isValidVersion : String → Bool
  byteSizeOf : Option RawPeerInfo → Nat

/-- The rendering of an optional string inside a JS template literal
(`undefined` when absent). -/
def jsShowOptStr : Option String → String
  | some s => s
  | none => "undefined"

/-- The rendering of an optional number inside a JS template literal. -/
def jsShowOptInt : Option Int → String
  | some i => toString i
  | none => "undefined"

/-- Truthiness of an optional JS string (absent or empty is falsy). -/
def truthyStr : Option String → Bool
  | some s => !s.isEmpty
  | none => false

/-- Truthiness of an optional JS number (absent or zero is falsy). -/
def truthyInt : Option Int → Bool
  | some i => decide (i ≠ 0)
  | none => false

/-- `validator.isPort(p.toString())`: an integer string in `0..65535`. -/
def isPortInt (p : Int) : Bool :=
  decide (0 ≤ p) && decide (p ≤ 65535)

/-- Function `validatePeerAddress(ip, wsPort)` of the validation module. -/
def validatePeerAddress (deps : ValidationDeps) (ip : String) (wsPort : Int) : Bool :=
  deps.isIP ip && isPortInt wsPort

/-- Function `validatePeerInfoSchema(rawPeerInfo)` of the validation module:
reject a falsy object, a falsy/invalid ip or wsPort, and a falsy/invalid
semver version, all with `InvalidPeerError`; otherwise build the sanitized
record (`ip` renamed to `ipAddress`, `os` defaulting to the empty string,
`height` defaulting to 0 exactly when absent or falsy, and kept verbatim —
sign included — otherwise). -/
def validatePeerInfoSchema (deps : ValidationDeps) (rawPeerInfo : Option RawPeerInfo) :
    Except PeerValidationError SanitizedPeerInfo :=
  match rawPeerInfo with
  | none => Except.error (PeerValidationError.invalidPeer "Invalid peer object")
  | some protocolPeer =>
    if !truthyStr protocolPeer.ip || !truthyInt protocolPeer.wsPort ||
        !validatePeerAddress deps (protocolPeer.ip.getD "") (protocolPeer.wsPort.getD 0) then
      Except.error (PeerValidationError.invalidPeer
        ("Invalid peer ip or port for peer with ip: " ++ jsShowOptStr protocolPeer.ip ++
          " and wsPort " ++ jsShowOptInt protocolPeer.wsPort))
    else if !truthyStr protocolPeer.version ||
        !deps.isValidVersion (protocolPeer.version.getD "") then
      Except.error (PeerValidationError.invalidPeer
        ("Invalid peer version for peer with ip: " ++ jsShowOptStr protocolPeer.ip ++
          ", wsPort " ++ jsShowOptInt protocolPeer.wsPort ++ " and version " ++
          jsShowOptStr protocolPeer.version))
    else
      Except.ok
        { ipAddress := protocolPeer.ip.getD ""
          wsPort := protocolPeer.wsPort.getD 0
          version := protocolPeer.version.getD ""
          protocolVersion := protocolPeer.protocolVersion
          os := protocolPeer.os.getD ""
          height := protocolPeer.height.getD 0 }

/-- Function `validatePeerInfo(rawPeerInfo, maxByteSize)` of the validation
module: an oversized JSON encoding throws `InvalidRPCResponseError` (not
`InvalidPeerError`), otherwise defer to `validatePeerInfoSchema`. -/
def validatePeerInfo (deps : ValidationDeps) (rawPeerInfo : Option RawPeerInfo)
    (maxByteSize : Nat) : Except PeerValidationError SanitizedPeerInfo :=
  if deps.byteSizeOf rawPeerInfo > maxByteSize then
    Except.error (PeerValidationError.invalidRPCResponse
      ("PeerInfo was larger than the maximum allowed " ++ toString maxByteSize ++ " bytes"))
  else
    validatePeerInfoSchema deps rawPeerInfo

/-!
Concrete instances shared by witnesses and counterexamples.
-/

/-- A small session configuration used in concrete scenarios. -/
def cfgEx : PeerConfig :=
  { rateCalculationInterval := 1000, wsMaxMessageRate := 100, wsMaxMessageRatePenalty := 10 }

/-- An open transport socket used in concrete scenarios. -/
def sockOpenEx : Socket :=
  { st := SockSt.sockOpen }

/-- A fresh inbound-style session with an open socket used in concrete
scenarios. -/
def peerEx : PeerState :=
  Peer.mkState "5.6.7.8:80" "5.6.7.8" 80 none cfgEx (some sockOpenEx) 0

/-- A small pool configuration used in concrete scenarios. -/
def poolCfgEx : PoolConfig :=
  { maxInboundConnections := 10, maxOutboundConnections := 10, peerConfig := cfgEx }

/-- A fresh pool with no cached node info used in concrete scenarios. -/
def poolEx : PoolState :=
  initialPool poolCfgEx none

/-- A well-formed peer info used in concrete scenarios
(`getPeerIdFromPeerInfo` maps it to `"5.6.7.8:80"`). -/
def infoEx : PeerInfo :=
  { ipAddress := "5.6.7.8", wsPort := 80 }

/-- Concrete validation dependencies used in concrete scenarios: an ip
checker accepting exactly `"1.2.3.4"`, a semver checker accepting exactly
`"1.0.0"`, and a constant JSON byte size of 10. -/
def depsEx : ValidationDeps :=
  { isIP := fun s => s == "1.2.3.4"
    isValidVersion := fun s => s == "1.0.0"
    byteSizeOf := fun _ => 10 }

/-- A wire peer info with a negative advertised height used in concrete
scenarios. -/
def rawEx : RawPeerInfo :=
  { ip := some "1.2.3.4", wsPort := some 80, version := some "1.0.0", height := some (-5) }

/-!
Session lemmas: behaviour of `applyPenalty`, `request` and the rate tick.
-/

namespace Peer

theorem disconnect_of_inactive {s : PeerState} (h : s.active = false)
    (code : Nat) (reason : String) : disconnect code reason s = s := by
  simp [disconnect, h]

theorem applyPenalty_reputation (p : Int) (s : PeerState) :
    (applyPenalty p s).reputation = s.reputation - p := by
  unfold applyPenalty banPeer disconnect
  dsimp only
  split_ifs <;> rfl

theorem applyPenalty_events (p : Int) (s : PeerState) :
    (applyPenalty p s).events =
      s.events ++ (if s.reputation - p ≤ 0 then [PeerEvent.banPeer s.id] else []) := by
  unfold applyPenalty banPeer disconnect
  dsimp only
  split_ifs <;> simp_all

theorem applyPenalty_banCount (p : Int) (s : PeerState) :
    banCount (applyPenalty p s) =
      banCount s + (if s.reputation - p ≤ 0 then 1 else 0) := by
  unfold banCount
  rw [applyPenalty_events]
  split <;> simp [List.countP_append, List.countP_cons]

theorem applyPenalty_active (p : Int) (s : PeerState) :
    (applyPenalty p s).active = (if s.reputation - p ≤ 0 then false else s.active) := by
  unfold applyPenalty banPeer disconnect
  dsimp only
  split_ifs <;> simp_all

theorem applyPenalty_socket (p : Int) (s : PeerState) :
    (applyPenalty p s).socket =
      if s.reputation - p ≤ 0 ∧ s.active = true then
        s.socket.map fun sock =>
          { sock with
            st := SockSt.sockClosed
            closedWith := some (FORBIDDEN_CONNECTION, FORBIDDEN_CONNECTION_REASON) }
      else s.socket := by
  unfold applyPenalty banPeer disconnect
  dsimp only
  split_ifs <;> simp_all

theorem applyPenalty_inactive {s : PeerState} (h : s.active = false) (p : Int) :
    (applyPenalty p s).active = false ∧ state (applyPenalty p s) = state s := by
  constructor
  · rw [applyPenalty_active]
    split <;> simp [h]
  · unfold state
    rw [applyPenalty_socket]
    rw [if_neg (by simp [h])]

theorem applyPenalty_inv {s : PeerState}
    (hinv : s.active = false → state s = ConnectionState.CLOSED) (p : Int) :
    (applyPenalty p s).active = false → state (applyPenalty p s) = ConnectionState.CLOSED := by
  intro hact
  unfold state
  rw [applyPenalty_socket]
  by_cases hc : s.reputation - p ≤ 0 ∧ s.active = true
  · rw [if_pos hc]
    cases s.socket <;> simp
  · rw [if_neg hc]
    have hsact : s.active = false := by
      rw [applyPenalty_active] at hact
      by_cases hb : s.reputation - p ≤ 0
      · cases hsa : s.active
        · rfl
        · exact absurd ⟨hb, hsa⟩ hc
      · simpa [hb] using hact
    have := hinv hsact
    unfold state at this
    exact this

theorem applyPenalty_closes {s : PeerState} {p : Int} (hban : s.reputation - p ≤ 0) :
    (applyPenalty p s).active = false := by
  rw [applyPenalty_active, if_pos hban]

theorem foldl_applyPenalty_banCount (ps : List Int) (s : PeerState) :
    banCount (ps.foldl (fun t p => applyPenalty p t) s) =
      banCount s + banSpec s.reputation ps := by
  induction ps generalizing s with
  | nil => simp [banSpec]
  | cons p t ih =>
    simp only [List.foldl_cons, banSpec]
    rw [ih, applyPenalty_banCount, applyPenalty_reputation]
    omega

theorem foldl_applyPenalty_inv (ps : List Int) (s : PeerState)
    (hinv : s.active = false → state s = ConnectionState.CLOSED) :
    ((ps.foldl (fun t p => applyPenalty p t) s).active = false →
      state (ps.foldl (fun t p => applyPenalty p t) s) = ConnectionState.CLOSED) := by
  induction ps generalizing s with
  | nil => simpa using hinv
  | cons p t ih =>
    simp only [List.foldl_cons]
    exact ih _ (applyPenalty_inv hinv p)

theorem foldl_applyPenalty_stays_inactive (ps : List Int) (s : PeerState)
    (h : s.active = false) :
    (ps.foldl (fun t p => applyPenalty p t) s).active = false := by
  induction ps generalizing s with
  | nil => simpa
  | cons p t ih =>
    simp only [List.foldl_cons]
    exact ih _ (applyPenalty_inactive h p).1

theorem banSpec_pos_inactive (ps : List Int) (s : PeerState)
    (hpos : 0 < banSpec s.reputation ps) :
    (ps.foldl (fun t p => applyPenalty p t) s).active = false := by
  induction ps generalizing s with
  | nil => simp [banSpec] at hpos
  | cons p t ih =>
    simp only [List.foldl_cons]
    by_cases hban : s.reputation - p ≤ 0
    · exact foldl_applyPenalty_stays_inactive t _ (applyPenalty_closes hban)
    · refine ih _ ?_
      rw [applyPenalty_reputation]
      simp only [banSpec, if_neg hban, Nat.zero_add] at hpos
      exact hpos

theorem applyPenalty_preserves (p : Int) (s : PeerState) :
    (applyPenalty p s).wsMessageRate = s.wsMessageRate ∧
    (applyPenalty p s).wsMessageCount = s.wsMessageCount ∧
    (applyPenalty p s).rpcRates = s.rpcRates ∧
    (applyPenalty p s).rpcCounter = s.rpcCounter ∧
    (applyPenalty p s).messageRates = s.messageRates ∧
    (applyPenalty p s).messageCounter = s.messageCounter := by
  unfold applyPenalty banPeer disconnect
  dsimp only
  split_ifs <;> simp_all

end Peer

theorem assocGet_map_val {α β : Type} (f : α → β) (k : String) (l : List (String × α)) :
    assocGet k (l.map fun kv => (kv.1, f kv.2)) = (assocGet k l).map f := by
  induction l with
  | nil => rfl
  | cons h t ih =>
    dsimp [assocGet]
    split <;> simp [ih]

/-- C1 counterexample: from a fresh session, `applyPenalty(100)` emits one
`banPeer` event, and a further `applyPenalty(1)` — after the reputation has
already reached ≤ 0 — emits a second one, so over the session's lifetime more
than one `banPeer` can be emitted. -/
theorem claim_C1_counterexample :
    Peer.banCount (Peer.applyPenalty 100 peerEx) = 1 ∧
    Peer.banCount (Peer.applyPenalty 1 (Peer.applyPenalty 100 peerEx)) = 2 := by
  decide

/-- C1 (amended): every `applyPenalty` call whose resulting reputation is
≤ 0 emits one `banPeer` event — so over a session's lifetime the number of
`banPeer` events equals the number of such calls, which can exceed one —
and once any such call has happened the session is inactive and its state is
closed. -/
theorem claim_C1 (s : PeerState) (ps : List Int)
    (hinv : s.active = false → Peer.state s = ConnectionState.CLOSED) :
    Peer.banCount (ps.foldl (fun t p => Peer.applyPenalty p t) s) =
      Peer.banCount s + Peer.banSpec s.reputation ps ∧
    (0 < Peer.banSpec s.reputation ps →
      (ps.foldl (fun t p => Peer.applyPenalty p t) s).active = false ∧
      Peer.state (ps.foldl (fun t p => Peer.applyPenalty p t) s) = ConnectionState.CLOSED) := by
  refine ⟨Peer.foldl_applyPenalty_banCount ps s, fun hpos => ?_⟩
  have hin := Peer.banSpec_pos_inactive ps s hpos
  exact ⟨hin, Peer.foldl_applyPenalty_inv ps s hinv hin⟩

/-- Witness for C1 at a concrete session and penalty sequence 60, 60
(cumulative 120 ≥ 100). -/
theorem claim_C1_witness :
    (peerEx.active = false → Peer.state peerEx = ConnectionState.CLOSED) ∧
    (Peer.banCount (([60, 60] : List Int).foldl (fun t p => Peer.applyPenalty p t) peerEx) =
        Peer.banCount peerEx + Peer.banSpec peerEx.reputation [60, 60] ∧
      (0 < Peer.banSpec peerEx.reputation [60, 60] →
        (([60, 60] : List Int).foldl (fun t p => Peer.applyPenalty p t) peerEx).active = false ∧
        Peer.state (([60, 60] : List Int).foldl (fun t p => Peer.applyPenalty p t) peerEx) =
          ConnectionState.CLOSED)) :=
  ⟨by decide, claim_C1 peerEx [60, 60] (by decide)⟩

/-- C2 counterexample: a successful request (setting responseRate to 1/1)
followed by a failing request leaves responseRate = 1, responseCounter = 1
and requestCounter = 2, while the claimed invariant would require
responseRate = 1 / max(2, 1) = 1/2. -/
theorem claim_C2_counterexample :
    (Peer.request (β := Nat) "p" (Peer.InvokeOutcome.failure "SomeError" "boom") 6
        (Peer.request (β := Nat) "p" (Peer.InvokeOutcome.success (some 1)) 5
          peerEx).2).2.productivity.responseRate = 1 ∧
    (Peer.request (β := Nat) "p" (Peer.InvokeOutcome.failure "SomeError" "boom") 6
        (Peer.request (β := Nat) "p" (Peer.InvokeOutcome.success (some 1)) 5
          peerEx).2).2.productivity.responseCounter = 1 ∧
    (Peer.request (β := Nat) "p" (Peer.InvokeOutcome.failure "SomeError" "boom") 6
        (Peer.request (β := Nat) "p" (Peer.InvokeOutcome.success (some 1)) 5
          peerEx).2).2.productivity.requestCounter = 2 ∧
    ¬ ((1 : ℚ) = (1 : ℚ) / max (2 : ℚ) 1) := by
  refine ⟨?_, by decide, by decide, by norm_num⟩
  show ((1 : ℕ) : ℚ) / ((1 : ℕ) : ℚ) = 1
  norm_num

/-- C2 (amended): every completion of `request` increments `requestCounter`
by one; a successful completion re-establishes
`responseRate = responseCounter / max(requestCounter, 1)`, while every
failing completion (missing socket, transport error, timeout, falsy body)
leaves `responseCounter` and `responseRate` unchanged — so the quotient
invariant holds after successes but can fail after a failure that follows an
earlier success. -/
theorem claim_C2 {β : Type} (proc : String) (outcome : Peer.InvokeOutcome β) (now : Nat)
    (s : PeerState) :
    ((Peer.request proc outcome now s).2.productivity.requestCounter =
        s.productivity.requestCounter + 1) ∧
    (∀ b, (Peer.request proc outcome now s).1 = Except.ok b →
      (Peer.request proc outcome now s).2.productivity.responseRate =
        ((Peer.request proc outcome now s).2.productivity.responseCounter : ℚ) /
          max ((Peer.request proc outcome now s).2.productivity.requestCounter : ℚ) 1) ∧
    (∀ e, (Peer.request proc outcome now s).1 = Except.error e →
      (Peer.request proc outcome now s).2.productivity.responseCounter =
          s.productivity.responseCounter ∧
        (Peer.request proc outcome now s).2.productivity.responseRate =
          s.productivity.responseRate) := by
  unfold Peer.request
  dsimp only
  cases s.socket with
  | none =>
    dsimp only
    exact ⟨rfl, ⟨fun b hb => Except.noConfusion hb, fun e he => ⟨rfl, rfl⟩⟩⟩
  | some sock =>
    dsimp only
    cases outcome with
    | failure name msg =>
      dsimp only
      by_cases hname : name = "TimeoutError"
      · rw [if_pos hname]
        unfold Peer.disconnect
        dsimp only
        refine ⟨?_, ⟨fun b hb => Except.noConfusion hb, fun e he => ?_⟩⟩
        · split_ifs <;> rfl
        · split_ifs <;> exact ⟨rfl, rfl⟩
      · rw [if_neg hname]
        exact ⟨rfl, ⟨fun b hb => Except.noConfusion hb, fun e he => ⟨rfl, rfl⟩⟩⟩
    | success body =>
      cases body with
      | none =>
        exact ⟨rfl, ⟨fun b hb => Except.noConfusion hb, fun e he => ⟨rfl, rfl⟩⟩⟩
      | some b0 =>
        refine ⟨rfl, ⟨fun b hb => ?_, fun e he => Except.noConfusion he⟩⟩
        dsimp only
        rw [max_eq_left (by exact_mod_cast Nat.one_le_iff_ne_zero.mpr (Nat.succ_ne_zero _))]

/-- Witness for C2 at a concrete successful and a concrete failing request. -/
theorem claim_C2_witness :
    ((Peer.request (β := Nat) "p" (Peer.InvokeOutcome.success (some 1)) 5
        peerEx).2.productivity.responseRate =
      ((Peer.request (β := Nat) "p" (Peer.InvokeOutcome.success (some 1)) 5
          peerEx).2.productivity.responseCounter : ℚ) /
        max ((Peer.request (β := Nat) "p" (Peer.InvokeOutcome.success (some 1)) 5
            peerEx).2.productivity.requestCounter : ℚ) 1) ∧
    ((Peer.request (β := Nat) "p" (Peer.InvokeOutcome.failure "E" "boom") 5
        peerEx).2.productivity.responseRate = peerEx.productivity.responseRate) :=
  ⟨(claim_C2 "p" (Peer.InvokeOutcome.success (some 1)) 5 peerEx).2.1 1 (by rfl),
    ((claim_C2 "p" (Peer.InvokeOutcome.failure "E" "boom") 5 peerEx).2.2
      (Peer.RequestError.rpcResponse "boom" (Peer.addressPort peerEx)) (by rfl)).2⟩

/-- C3: on a session with a socket, a transport TimeoutError surfaces as
RPCTimeout and disconnects the session with FAILED_TO_RESPOND; any other
transport error surfaces as RPCResponseError without disconnecting; a falsy
response body surfaces as RPCResponseError ("Failed to handle response for
procedure ...") without disconnecting. -/
theorem claim_C3 {β : Type} (proc msg name : String) (now : Nat) (s : PeerState)
    (hsock : s.socket.isSome) (hact : s.active = true) :
    ((Peer.request (β := β) proc (Peer.InvokeOutcome.failure "TimeoutError" msg) now s).1 =
        Except.error (Peer.RequestError.rpcTimeout msg (Peer.addressPort s)) ∧
      (Peer.request (β := β) proc (Peer.InvokeOutcome.failure "TimeoutError" msg) now
          s).2.socket =
        s.socket.map (fun sock =>
          { sock with
            st := SockSt.sockClosed
            closedWith := some (FAILED_TO_RESPOND, FAILED_TO_RESPOND_REASON) }) ∧
      Peer.state (Peer.request (β := β) proc (Peer.InvokeOutcome.failure "TimeoutError" msg)
          now s).2 = ConnectionState.CLOSED) ∧
    (name ≠ "TimeoutError" →
      (Peer.request (β := β) proc (Peer.InvokeOutcome.failure name msg) now s).1 =
          Except.error (Peer.RequestError.rpcResponse msg (Peer.addressPort s)) ∧
        (Peer.request (β := β) proc (Peer.InvokeOutcome.failure name msg) now s).2.socket =
          s.socket ∧
        (Peer.request (β := β) proc (Peer.InvokeOutcome.failure name msg) now s).2.active =
          s.active) ∧
    ((Peer.request proc (Peer.InvokeOutcome.success (none : Option β)) now s).1 =
        Except.error (Peer.RequestError.rpcResponse
          ("Failed to handle response for procedure " ++ proc) (Peer.addressPort s)) ∧
      (Peer.request proc (Peer.InvokeOutcome.success (none : Option β)) now s).2.socket =
        s.socket ∧
      (Peer.request proc (Peer.InvokeOutcome.success (none : Option β)) now s).2.active =
        s.active) := by
  obtain ⟨sock, hs⟩ := Option.isSome_iff_exists.mp hsock
  refine ⟨?_, fun hname => ?_, ?_⟩
  · unfold Peer.request Peer.disconnect Peer.state Peer.addressPort
    simp [hs, hact]
  · unfold Peer.request Peer.addressPort
    simp [hs, hname]
  · unfold Peer.request Peer.addressPort
    simp [hs]

/-- Witness for C3 at a concrete open-socket session. -/
theorem claim_C3_witness :
    peerEx.socket.isSome = true ∧ peerEx.active = true ∧ ("E" : String) ≠ "TimeoutError" ∧
    ((Peer.request (β := Nat) "p" (Peer.InvokeOutcome.failure "TimeoutError" "m") 0 peerEx).1 =
        Except.error (Peer.RequestError.rpcTimeout "m" (Peer.addressPort peerEx)) ∧
      Peer.state (Peer.request (β := Nat) "p"
          (Peer.InvokeOutcome.failure "TimeoutError" "m") 0 peerEx).2 = ConnectionState.CLOSED) ∧
    ((Peer.request (β := Nat) "p" (Peer.InvokeOutcome.failure "E" "m") 0 peerEx).1 =
        Except.error (Peer.RequestError.rpcResponse "m" (Peer.addressPort peerEx)) ∧
      (Peer.request (β := Nat) "p" (Peer.InvokeOutcome.failure "E" "m") 0 peerEx).2.socket =
        peerEx.socket) :=
  ⟨by decide, by decide, by decide,
    ⟨(claim_C3 (β := Nat) "p" "m" "E" 0 peerEx (by decide) (by decide)).1.1,
      (claim_C3 (β := Nat) "p" "m" "E" 0 peerEx (by decide) (by decide)).1.2.2⟩,
    ⟨((claim_C3 (β := Nat) "p" "m" "E" 0 peerEx (by decide) (by decide)).2.1 (by decide)).1,
      ((claim_C3 (β := Nat) "p" "m" "E" 0 peerEx (by decide) (by decide)).2.1 (by decide)).2.1⟩⟩

/-- C6: one rate tick sets `wsMessageRate` to
`wsMessageCount * 1000 / rateInterval` and zeroes `wsMessageCount`; when the
new rate exceeds `wsMaxMessageRate`, `applyPenalty(wsMaxMessageRatePenalty)`
runs immediately (the reputation drops by the penalty) and the rotation of
`rpcCounter`/`messageCounter` into `rpcRates`/`messageRates` is skipped for
the tick; otherwise every counted key is rotated to `count / rateInterval`
and both counters are zeroed. -/
theorem claim_C6 (s : PeerState) (hpos : 0 < s.rateInterval) :
    (Peer.counterResetTick s).wsMessageRate =
        (s.wsMessageCount * 1000 : ℚ) / (s.rateInterval : ℚ) ∧
    (Peer.counterResetTick s).wsMessageCount = 0 ∧
    ((s.wsMessageCount * 1000 : ℚ) / (s.rateInterval : ℚ) >
        s.peerConfig.wsMaxMessageRate →
      (Peer.counterResetTick s).reputation =
          s.reputation - s.peerConfig.wsMaxMessageRatePenalty ∧
        (Peer.counterResetTick s).rpcRates = s.rpcRates ∧
        (Peer.counterResetTick s).rpcCounter = s.rpcCounter ∧
        (Peer.counterResetTick s).messageRates = s.messageRates ∧
        (Peer.counterResetTick s).messageCounter = s.messageCounter) ∧
    (¬ (s.wsMessageCount * 1000 : ℚ) / (s.rateInterval : ℚ) >
        s.peerConfig.wsMaxMessageRate →
      (Peer.counterResetTick s).rpcCounter = [] ∧
        (Peer.counterResetTick s).messageCounter = [] ∧
        (Peer.counterResetTick s).reputation = s.reputation ∧
        (∀ k, assocGet k (Peer.counterResetTick s).rpcRates =
          Option.map (fun c : Nat => (c : ℚ) / (s.rateInterval : ℚ))
            (assocGet k s.rpcCounter)) ∧
        (∀ k, assocGet k (Peer.counterResetTick s).messageRates =
          Option.map (fun c : Nat => (c : ℚ) / (s.rateInterval : ℚ))
            (assocGet k s.messageCounter))) := by
  unfold Peer.counterResetTick
  dsimp only
  by_cases hr : (s.wsMessageCount * 1000 : ℚ) / (s.rateInterval : ℚ) >
      s.peerConfig.wsMaxMessageRate
  · rw [if_pos (by exact_mod_cast hr)]
    have hp := Peer.applyPenalty_preserves s.peerConfig.wsMaxMessageRatePenalty
      { s with
        wsMessageRate := (s.wsMessageCount * (RATE_NORMALIZATION_FACTOR : Nat) : ℚ) /
          (s.rateInterval : ℚ)
        wsMessageCount := 0 }
    refine ⟨?_, ?_, fun _ => ⟨?_, ?_, ?_, ?_, ?_⟩, fun hc => absurd hr hc⟩
    · rw [hp.1]
      norm_num [RATE_NORMALIZATION_FACTOR]
    · rw [hp.2.1]
    · rw [Peer.applyPenalty_reputation]
    · exact hp.2.2.1
    · exact hp.2.2.2.1
    · exact hp.2.2.2.2.1
    · exact hp.2.2.2.2.2
  · rw [if_neg (by exact_mod_cast hr)]
    refine ⟨by norm_num [RATE_NORMALIZATION_FACTOR], rfl, fun hc => absurd hc hr,
      fun _ => ⟨rfl, rfl, rfl, fun k => ?_, fun k => ?_⟩⟩
    · dsimp only
      exact assocGet_map_val (fun c : Nat => (c : ℚ) / (s.rateInterval : ℚ)) k s.rpcCounter
    · dsimp only
      exact assocGet_map_val (fun c : Nat => (c : ℚ) / (s.rateInterval : ℚ)) k s.messageCounter

/-- Witness for C6 at a concrete session with one counted procedure. -/
theorem claim_C6_witness :
    (0 < peerEx.rateInterval) ∧
    (Peer.counterResetTick peerEx).wsMessageCount = 0 ∧
    (Peer.counterResetTick peerEx).wsMessageRate =
      (peerEx.wsMessageCount * 1000 : ℚ) / (peerEx.rateInterval : ℚ) :=
  ⟨by decide, (claim_C6 peerEx (by decide)).2.1, (claim_C6 peerEx (by decide)).1⟩

/-!
Association-list lemmas used by the pool claims.
-/

theorem assocGet_assocSet_self {α : Type} (k : String) (v : α) (l : List (String × α)) :
    assocGet k (assocSet k v l) = some v := by
  induction l with
  | nil => simp [assocSet, assocGet]
  | cons h t ih =>
    obtain ⟨k', v'⟩ := h
    by_cases hk : k' = k
    · simp [assocSet, assocGet, hk]
    · simp [assocSet, assocGet, hk, ih]

theorem assocDelete_of_not_has {α : Type} {k : String} {l : List (String × α)}
    (h : assocGet k l = none) : assocDelete k l = l := by
  induction l with
  | nil => rfl
  | cons hd t ih =>
    obtain ⟨k', v'⟩ := hd
    by_cases hk : k' = k
    · simp [assocGet, hk] at h
    · simp only [assocGet, hk, if_neg, ite_false] at h
      simp [assocDelete, hk, ih h]

theorem mem_keys_assocSet {α : Type} {x k : String} (v : α) (l : List (String × α)) :
    x ∈ (assocSet k v l).map Prod.fst ↔ x = k ∨ x ∈ l.map Prod.fst := by
  induction l with
  | nil => simp [assocSet]
  | cons h t ih =>
    obtain ⟨k', v'⟩ := h
    by_cases hk : k' = k
    · subst hk
      simp [assocSet]
    · simp only [assocSet, hk, ite_false, List.map_cons, List.mem_cons, ih]
      tauto

theorem nodup_keys_assocSet {α : Type} (k : String) (v : α) {l : List (String × α)}
    (h : (l.map Prod.fst).Nodup) : ((assocSet k v l).map Prod.fst).Nodup := by
  induction l with
  | nil => simp [assocSet]
  | cons hd t ih =>
    obtain ⟨k', v'⟩ := hd
    by_cases hk : k' = k
    · subst hk
      simpa [assocSet] using h
    · simp only [List.map_cons, List.nodup_cons] at h
      simp only [assocSet, hk, ite_false, List.map_cons, List.nodup_cons]
      refine ⟨fun hmem => ?_, ih h.2⟩
      rcases (mem_keys_assocSet v t).mp hmem with heq | hmem2
      · exact hk heq
      · exact h.1 hmem2

theorem keys_assocDelete_sublist {α : Type} (k : String) (l : List (String × α)) :
    ((assocDelete k l).map Prod.fst).Sublist (l.map Prod.fst) := by
  induction l with
  | nil => simp [assocDelete]
  | cons hd t ih =>
    obtain ⟨k', v'⟩ := hd
    by_cases hk : k' = k
    · simp only [assocDelete, hk, ite_true, List.map_cons]
      exact ih.cons _
    · simp only [assocDelete, hk, ite_false, List.map_cons]
      exact ih.cons₂ _

theorem nodup_keys_assocDelete {α : Type} (k : String) {l : List (String × α)}
    (h : (l.map Prod.fst).Nodup) : ((assocDelete k l).map Prod.fst).Nodup :=
  h.sublist (keys_assocDelete_sublist k l)

/-- C9: when `peerId` is already a key of the outbound map, `addOutboundPeer`
returns the stored session and leaves the whole pool state (outbound map,
inbound map, events, handler-binding trace) unchanged; consequently, for a
`peerId` matching its peer info, calling `addOutboundPeer` twice is
observationally equivalent to calling it once: the second call returns the
very session created by the first and the pool state after two calls equals
the state after one. -/
theorem claim_C9 (pool : PoolState) (peerId : String) (info : PeerInfo) (now now2 : Nat)
    (hid : getPeerIdFromPeerInfo info = some peerId) :
    (∀ existing, assocGet peerId pool.outboundPeerMap = some existing →
      PeerPool.addOutboundPeer peerId info now pool = (Except.ok existing, pool)) ∧
    (PeerPool.addOutboundPeer peerId info now2
        (PeerPool.addOutboundPeer peerId info now pool).2).2 =
      (PeerPool.addOutboundPeer peerId info now pool).2 ∧
    (∀ peer, (PeerPool.addOutboundPeer peerId info now pool).1 = Except.ok peer →
      (PeerPool.addOutboundPeer peerId info now2
          (PeerPool.addOutboundPeer peerId info now pool).2).1 = Except.ok peer) := by
  have hshort : ∀ (n : Nat) (q : PoolState) (existing : PeerState),
      assocGet peerId q.outboundPeerMap = some existing →
      PeerPool.addOutboundPeer peerId info n q = (Except.ok existing, q) := by
    intro n q existing hex
    unfold PeerPool.addOutboundPeer
    rw [hex]
  rcases hget : assocGet peerId pool.outboundPeerMap with _ | existing
  · have hmap : (PeerPool.addOutboundPeer peerId info now pool).2.outboundPeerMap =
        assocSet peerId (Peer.mkState peerId info.ipAddress info.wsPort info.height
          pool.cfg.peerConfig none now) pool.outboundPeerMap := by
      unfold PeerPool.addOutboundPeer
      rw [hget, hid]
      dsimp only
      cases pool.nodeInfo <;> rfl
    have hfst : (PeerPool.addOutboundPeer peerId info now pool).1 =
        Except.ok (Peer.mkState peerId info.ipAddress info.wsPort info.height
          pool.cfg.peerConfig none now) := by
      unfold PeerPool.addOutboundPeer
      rw [hget, hid]
    have hget2 : assocGet peerId
        (PeerPool.addOutboundPeer peerId info now pool).2.outboundPeerMap =
        some (Peer.mkState peerId info.ipAddress info.wsPort info.height
          pool.cfg.peerConfig none now) := by
      rw [hmap, assocGet_assocSet_self]
    refine ⟨fun e hex => Option.noConfusion hex, ?_, ?_⟩
    · rw [hshort now2 _ _ hget2]
    · intro peer hpeer
      rw [hfst] at hpeer
      cases hpeer
      rw [hshort now2 _ _ hget2]
  · refine ⟨fun e hex => hshort now pool e (hget.trans hex), ?_, ?_⟩
    · rw [hshort now pool existing hget, hshort now2 pool existing hget]
    · intro peer hpeer
      rw [hshort now pool existing hget] at hpeer ⊢
      rw [hshort now2 pool existing hget]
      exact hpeer

/-- Witness for C9 at a concrete pool, calling `addOutboundPeer` twice with
id `"5.6.7.8:80"`. -/
theorem claim_C9_witness :
    getPeerIdFromPeerInfo infoEx = some "5.6.7.8:80" ∧
    ((PeerPool.addOutboundPeer "5.6.7.8:80" infoEx 1
        (PeerPool.addOutboundPeer "5.6.7.8:80" infoEx 0 poolEx).2).2 =
      (PeerPool.addOutboundPeer "5.6.7.8:80" infoEx 0 poolEx).2) :=
  ⟨by decide, (claim_C9 poolEx "5.6.7.8:80" infoEx 0 1 (by decide)).2.1⟩

/-- C10: every single call to `removeOutboundPeer` or `removeInboundPeer`
appends exactly one `removePeer` event, even when no peer with that id is in
the corresponding map; in the absent case the call returns false and both
maps and the call trace are unchanged; in the present case it returns true,
disconnects the peer and unbinds its handlers (recorded in the trace), and
deletes the id from its own map, leaving the other map unchanged. -/
theorem claim_C10 (pool : PoolState) (peerId : String) (code : Nat) (reason : String) :
    ((PeerPool.removeOutboundPeer peerId code reason pool).2.events =
        pool.events ++ [PoolEvent.removePeer peerId] ∧
      (assocHas peerId pool.outboundPeerMap = false →
        (PeerPool.removeOutboundPeer peerId code reason pool).1 = false ∧
        (PeerPool.removeOutboundPeer peerId code reason pool).2.outboundPeerMap =
          pool.outboundPeerMap ∧
        (PeerPool.removeOutboundPeer peerId code reason pool).2.inboundPeerMap =
          pool.inboundPeerMap ∧
        (PeerPool.removeOutboundPeer peerId code reason pool).2.trace = pool.trace) ∧
      (assocHas peerId pool.outboundPeerMap = true →
        (PeerPool.removeOutboundPeer peerId code reason pool).1 = true ∧
        (PeerPool.removeOutboundPeer peerId code reason pool).2.outboundPeerMap =
          assocDelete peerId pool.outboundPeerMap ∧
        (PeerPool.removeOutboundPeer peerId code reason pool).2.inboundPeerMap =
          pool.inboundPeerMap ∧
        (PeerPool.removeOutboundPeer peerId code reason pool).2.trace =
          pool.trace ++
            [PoolTrace.disconnectCall peerId code reason,
              PoolTrace.unbindHandlers peerId])) ∧
    ((PeerPool.removeInboundPeer peerId code reason pool).2.events =
        pool.events ++ [PoolEvent.removePeer peerId] ∧
      (assocHas peerId pool.inboundPeerMap = false →
        (PeerPool.removeInboundPeer peerId code reason pool).1 = false ∧
        (PeerPool.removeInboundPeer peerId code reason pool).2.inboundPeerMap =
          pool.inboundPeerMap ∧
        (PeerPool.removeInboundPeer peerId code reason pool).2.outboundPeerMap =
          pool.outboundPeerMap ∧
        (PeerPool.removeInboundPeer peerId code reason pool).2.trace = pool.trace) ∧
      (assocHas peerId pool.inboundPeerMap = true →
        (PeerPool.removeInboundPeer peerId code reason pool).1 = true ∧
        (PeerPool.removeInboundPeer peerId code reason pool).2.inboundPeerMap =
          assocDelete peerId pool.inboundPeerMap ∧
        (PeerPool.removeInboundPeer peerId code reason pool).2.outboundPeerMap =
          pool.outboundPeerMap ∧
        (PeerPool.removeInboundPeer peerId code reason pool).2.trace =
          pool.trace ++
            [PoolTrace.disconnectCall peerId code reason,
              PoolTrace.unbindHandlers peerId])) := by
  constructor
  · unfold PeerPool.removeOutboundPeer assocHas
    rcases hget : assocGet peerId pool.outboundPeerMap with _ | peer
    · simp [assocDelete_of_not_has hget]
    · simp
  · unfold PeerPool.removeInboundPeer assocHas
    rcases hget : assocGet peerId pool.inboundPeerMap with _ | peer
    · simp [assocDelete_of_not_has hget]
    · simp

/-- Witness for C10: a pool that contains the outbound id `"5.6.7.8:80"` and
no inbound peers exercises both the present and the absent branch. -/
theorem claim_C10_witness :
    (assocHas "5.6.7.8:80"
        (PeerPool.addOutboundPeer "5.6.7.8:80" infoEx 0 poolEx).2.outboundPeerMap = true ∧
      (PeerPool.removeOutboundPeer "5.6.7.8:80" 1000 "bye"
          (PeerPool.addOutboundPeer "5.6.7.8:80" infoEx 0 poolEx).2).1 = true) ∧
    (assocHas "zzz" poolEx.outboundPeerMap = false ∧
      (PeerPool.removeOutboundPeer "zzz" 1000 "bye" poolEx).1 = false ∧
      (PeerPool.removeOutboundPeer "zzz" 1000 "bye" poolEx).2.events =
        poolEx.events ++ [PoolEvent.removePeer "zzz"]) :=
  ⟨⟨by decide,
      ((claim_C10 (PeerPool.addOutboundPeer "5.6.7.8:80" infoEx 0 poolEx).2
          "5.6.7.8:80" 1000 "bye").1.2.2 (by decide)).1⟩,
    ⟨by decide,
      ((claim_C10 poolEx "zzz" 1000 "bye").1.2.1 (by decide)).1,
      (claim_C10 poolEx "zzz" 1000 "bye").1.1⟩⟩

/-- C7 counterexample: from an empty pool, `addOutboundPeer` followed by
`addInboundPeer` with the same peer info leaves the id `"5.6.7.8:80"` as a
key of both the outbound and the inbound map simultaneously. -/
theorem claim_C7_counterexample :
    assocHas "5.6.7.8:80" (PeerPool.runPoolOps poolEx
      [PeerPool.PoolOp.addOutbound "5.6.7.8:80" infoEx 0,
        PeerPool.PoolOp.addInbound infoEx sockOpenEx 1 0]).outboundPeerMap = true ∧
    assocHas "5.6.7.8:80" (PeerPool.runPoolOps poolEx
      [PeerPool.PoolOp.addOutbound "5.6.7.8:80" infoEx 0,
        PeerPool.PoolOp.addInbound infoEx sockOpenEx 1 0]).inboundPeerMap = true := by
  decide

/-- C7 (amended): in every pool state reachable from an empty pool by add,
remove and eviction operations, each of the two maps individually has
pairwise-distinct peerId keys (and `addInboundPeer` throws on an id that is
already an inbound key), but cross-map exclusivity is not enforced: the same
peerId can be a key of both maps simultaneously. -/
theorem claim_C7 (cfg : PoolConfig) (ni : Option NodeInfo) (ops : List PeerPool.PoolOp) :
    ((PeerPool.runPoolOps (initialPool cfg ni) ops).inboundPeerMap.map Prod.fst).Nodup ∧
    ((PeerPool.runPoolOps (initialPool cfg ni) ops).outboundPeerMap.map Prod.fst).Nodup := by
  have hstep : ∀ (p : PoolState) (op : PeerPool.PoolOp),
      (p.inboundPeerMap.map Prod.fst).Nodup → (p.outboundPeerMap.map Prod.fst).Nodup →
      ((PeerPool.applyPoolOp p op).inboundPeerMap.map Prod.fst).Nodup ∧
      ((PeerPool.applyPoolOp p op).outboundPeerMap.map Prod.fst).Nodup := by
    have hremO : ∀ (p : PoolState) peerId code reason,
        (p.inboundPeerMap.map Prod.fst).Nodup → (p.outboundPeerMap.map Prod.fst).Nodup →
        (((PeerPool.removeOutboundPeer peerId code reason p).2.inboundPeerMap.map
            Prod.fst).Nodup ∧
          ((PeerPool.removeOutboundPeer peerId code reason p).2.outboundPeerMap.map
            Prod.fst).Nodup) := by
      intro p peerId code reason hin hout
      unfold PeerPool.removeOutboundPeer
      dsimp only
      split_ifs <;> exact ⟨hin, nodup_keys_assocDelete _ hout⟩
    have hremI : ∀ (p : PoolState) peerId code reason,
        (p.inboundPeerMap.map Prod.fst).Nodup → (p.outboundPeerMap.map Prod.fst).Nodup →
        (((PeerPool.removeInboundPeer peerId code reason p).2.inboundPeerMap.map
            Prod.fst).Nodup ∧
          ((PeerPool.removeInboundPeer peerId code reason p).2.outboundPeerMap.map
            Prod.fst).Nodup) := by
      intro p peerId code reason hin hout
      unfold PeerPool.removeInboundPeer
      dsimp only
      split_ifs <;> exact ⟨nodup_keys_assocDelete _ hin, hout⟩
    have hevI : ∀ (p : PoolState) choice,
        (p.inboundPeerMap.map Prod.fst).Nodup → (p.outboundPeerMap.map Prod.fst).Nodup →
        (((PeerPool.evictPeerInbound choice p).inboundPeerMap.map Prod.fst).Nodup ∧
          ((PeerPool.evictPeerInbound choice p).outboundPeerMap.map Prod.fst).Nodup) := by
      intro p choice hin hout
      unfold PeerPool.evictPeerInbound
      split_ifs
      · exact ⟨hin, hout⟩
      · rcases hc : p.inboundPeerMap.get? (choice % p.inboundPeerMap.length) with _ | kv
        · exact ⟨hin, hout⟩
        · obtain ⟨id, peer⟩ := kv
          exact hremI p id _ _ hin hout
    intro p op hin hout
    cases op with
    | addInbound info sock now choice =>
      unfold PeerPool.applyPoolOp PeerPool.addInboundPeer
      dsimp only
      set p1 := if p.inboundPeerMap.length ≥ p.cfg.maxInboundConnections *
          (match p.nodeInfo with
            | some ni =>
              match ni.modules with
              | some ms => ms.length + 1
              | none => 1
            | none => 1) then
          PeerPool.evictPeerInbound choice p
        else p with hp1
      have h1 : (p1.inboundPeerMap.map Prod.fst).Nodup ∧
          (p1.outboundPeerMap.map Prod.fst).Nodup := by
        rw [hp1]
        split_ifs
        · exact hevI p choice hin hout
        · exact ⟨hin, hout⟩
      rcases hgid : getPeerIdFromPeerInfo info with _ | id
      · simpa using h1
      · dsimp only
        split_ifs
        · exact h1
        · dsimp only
          cases p1.nodeInfo <;>
            exact ⟨nodup_keys_assocSet _ _ h1.1, h1.2⟩
    | addOutbound peerId info now =>
      unfold PeerPool.applyPoolOp PeerPool.addOutboundPeer
      dsimp only
      rcases assocGet peerId p.outboundPeerMap with _ | existing
      · rcases getPeerIdFromPeerInfo info with _ | id
        · exact ⟨hin, hout⟩
        · dsimp only
          cases p.nodeInfo <;>
            exact ⟨hin, nodup_keys_assocSet _ _ hout⟩
      · exact ⟨hin, hout⟩
    | removeInbound peerId code reason => exact hremI p peerId code reason hin hout
    | removeOutbound peerId code reason => exact hremO p peerId code reason hin hout
    | evictInbound choice => exact hevI p choice hin hout
    | evictOutbound choice =>
      unfold PeerPool.applyPoolOp PeerPool.evictPeerOutbound
      dsimp only
      split_ifs
      · exact ⟨hin, hout⟩
      · rcases p.outboundPeerMap.get? (choice % p.outboundPeerMap.length) with _ | kv
        · exact ⟨hin, hout⟩
        · obtain ⟨id, peer⟩ := kv
          exact hremO p id _ _ hin hout
  have hrun : ∀ (ops : List PeerPool.PoolOp) (p : PoolState),
      (p.inboundPeerMap.map Prod.fst).Nodup → (p.outboundPeerMap.map Prod.fst).Nodup →
      ((PeerPool.runPoolOps p ops).inboundPeerMap.map Prod.fst).Nodup ∧
      ((PeerPool.runPoolOps p ops).outboundPeerMap.map Prod.fst).Nodup := by
    intro ops
    induction ops with
    | nil => intro p hin hout; exact ⟨hin, hout⟩
    | cons op t ih =>
      intro p hin hout
      have h := hstep p op hin hout
      exact ih (PeerPool.applyPoolOp p op) h.1 h.2
  exact hrun ops (initialPool cfg ni) (by simp [initialPool]) (by simp [initialPool])

/-- C5 counterexample: an oversized peer info fails with
InvalidRPCResponseError rather than the claimed InvalidPeer, and a
well-formed record advertising height -5 validates successfully with the
negative height kept verbatim, contradicting the claimed coercion to a
non-negative integer. -/
theorem claim_C5_counterexample :
    validatePeerInfo depsEx (some rawEx) 5 =
      Except.error (PeerValidationError.invalidRPCResponse
        "PeerInfo was larger than the maximum allowed 5 bytes") ∧
    validatePeerInfo depsEx (some rawEx) 100 =
      Except.ok { ipAddress := "1.2.3.4", wsPort := 80, version := "1.0.0",
                  protocolVersion := none, os := "", height := -5 } ∧
    ({ ipAddress := "1.2.3.4", wsPort := 80, version := "1.0.0",
        protocolVersion := none, os := "", height := -5 : SanitizedPeerInfo }).height < 0 :=
  ⟨rfl, rfl, by norm_num⟩

/-- C5 (amended): `validatePeerInfo` fails with InvalidRPCResponse — not
InvalidPeer — when the JSON byte size exceeds `maxByteSize`; within the size
limit it fails with InvalidPeer when the ip or wsPort field is falsy or
invalid, or the version is falsy or not a valid semver; otherwise it returns
the sanitized record with the wire field `ip` renamed to `ipAddress`, `os`
defaulted to the empty string, and `height` defaulting to 0 exactly when
absent or falsy but kept verbatim — possibly negative — otherwise. -/
theorem claim_C5 (deps : ValidationDeps) (raw : RawPeerInfo) (maxByteSize : Nat) :
    (deps.byteSizeOf (some raw) > maxByteSize →
      validatePeerInfo deps (some raw) maxByteSize =
        Except.error (PeerValidationError.invalidRPCResponse
          ("PeerInfo was larger than the maximum allowed " ++ toString maxByteSize ++
            " bytes"))) ∧
    (deps.byteSizeOf (some raw) ≤ maxByteSize →
      ((!truthyStr raw.ip || !truthyInt raw.wsPort ||
          !validatePeerAddress deps (raw.ip.getD "") (raw.wsPort.getD 0)) = true →
        validatePeerInfo deps (some raw) maxByteSize =
          Except.error (PeerValidationError.invalidPeer
            ("Invalid peer ip or port for peer with ip: " ++ jsShowOptStr raw.ip ++
              " and wsPort " ++ jsShowOptInt raw.wsPort))) ∧
      ((!truthyStr raw.ip || !truthyInt raw.wsPort ||
          !validatePeerAddress deps (raw.ip.getD "") (raw.wsPort.getD 0)) = false →
        ((!truthyStr raw.version ||
            !deps.isValidVersion (raw.version.getD "")) = true →
          validatePeerInfo deps (some raw) maxByteSize =
            Except.error (PeerValidationError.invalidPeer
              ("Invalid peer version for peer with ip: " ++ jsShowOptStr raw.ip ++
                ", wsPort " ++ jsShowOptInt raw.wsPort ++ " and version " ++
                jsShowOptStr raw.version))) ∧
        ((!truthyStr raw.version ||
            !deps.isValidVersion (raw.version.getD "")) = false →
          validatePeerInfo deps (some raw) maxByteSize =
            Except.ok
              { ipAddress := raw.ip.getD ""
                wsPort := raw.wsPort.getD 0
                version := raw.version.getD ""
                protocolVersion := raw.protocolVersion
                os := raw.os.getD ""
                height := raw.height.getD 0 }))) := by
  refine ⟨fun hgt => ?_, fun hle => ⟨fun hbad => ?_, fun hgood => ⟨fun hbadv => ?_,
    fun hgoodv => ?_⟩⟩⟩ <;>
    unfold validatePeerInfo validatePeerInfoSchema <;>
    dsimp only
  · rw [if_pos hgt]
  · rw [if_neg (by omega), if_pos hbad]
  · rw [if_neg (by omega), if_neg (by simp [hgood]), if_pos hbadv]
  · rw [if_neg (by omega), if_neg (by simp [hgood]), if_neg (by simp [hgoodv])]

/-- Witness for C5 at concrete dependencies and records: the oversize branch
and the successful branch. -/
theorem claim_C5_witness :
    (depsEx.byteSizeOf (some rawEx) > 5 ∧
      validatePeerInfo depsEx (some rawEx) 5 =
        Except.error (PeerValidationError.invalidRPCResponse
          ("PeerInfo was larger than the maximum allowed " ++ toString 5 ++ " bytes"))) ∧
    (depsEx.byteSizeOf (some rawEx) ≤ 100 ∧
      validatePeerInfo depsEx (some rawEx) 100 =
        Except.ok
          { ipAddress := rawEx.ip.getD ""
            wsPort := rawEx.wsPort.getD 0
            version := rawEx.version.getD ""
            protocolVersion := rawEx.protocolVersion
            os := rawEx.os.getD ""
            height := rawEx.height.getD 0 }) :=
  ⟨⟨by decide, (claim_C5 depsEx rawEx 5).1 (by decide)⟩,
    ⟨by decide, (((claim_C5 depsEx rawEx 100).2 (by decide)).2 (by decide)).2 (by decide)⟩⟩

/-!
String lemmas for `normalizeAddress` and `getBucketId`: behaviour of
`replaceDC`, `splitChar`, `joinChar`, hexadecimal digits and `parseInt`,
leading to the canonical 8-group characterization of normalized IPv6 text.
-/

theorem replaceInduction (P : List Char → Prop) (h0 : P [])
    (hdc : ∀ t, P t → P (':' :: ':' :: t))
    (hstep : ∀ a t, ¬(a = ':' ∧ t.head? = some ':') → P t → P (a :: t)) :
    ∀ l, P l := by
  have key : ∀ n l, List.length l ≤ n → P l := by
    intro n
    induction n with
    | zero =>
      intro l hl
      rw [Nat.le_zero, List.length_eq_zero] at hl
      exact hl ▸ h0
    | succ n ih =>
      intro l hl
      cases l with
      | nil => exact h0
      | cons a t =>
        cases t with
        | nil => exact hstep a [] (by simp) h0
        | cons b t2 =>
          by_cases hab : a = ':' ∧ b = ':'
          · obtain ⟨ha, hb⟩ := hab
            subst ha
            subst hb
            refine hdc t2 (ih t2 ?_)
            simp only [List.length_cons] at hl
            omega
          · refine hstep a (b :: t2) (by simpa using hab) (ih (b :: t2) ?_)
            simp only [List.length_cons] at hl ⊢
            omega
  exact fun l => key l.length l le_rfl

theorem replaceDC_two (repl t : List Char) :
    replaceDC repl (':' :: ':' :: t) = repl ++ replaceDC repl t := rfl

theorem replaceDC_cons (repl : List Char) (a : Char) (t : List Char)
    (h : ¬(a = ':' ∧ t.head? = some ':')) :
    replaceDC repl (a :: t) = a :: replaceDC repl t := by
  cases t with
  | nil => simp [replaceDC]
  | cons b t2 =>
    by_cases ha : a = ':' <;> by_cases hb : b = ':' <;> simp_all [replaceDC]

theorem occDC_two (t : List Char) : occDC (':' :: ':' :: t) = 1 + occDC t := rfl

theorem occDC_cons (a : Char) (t : List Char) (h : ¬(a = ':' ∧ t.head? = some ':')) :
    occDC (a :: t) = occDC t := by
  cases t with
  | nil => simp [occDC]
  | cons b t2 =>
    by_cases ha : a = ':' <;> by_cases hb : b = ':' <;> simp_all [occDC]

theorem countChar_append (c : Char) (l1 l2 : List Char) :
    countChar c (l1 ++ l2) = countChar c l1 + countChar c l2 := by
  induction l1 with
  | nil => simp [countChar]
  | cons a t ih => simp [countChar, ih]; omega

theorem countChar_replicate (c : Char) (d : Nat) :
    countChar c (List.replicate d c) = d := by
  induction d with
  | zero => rfl
  | succ d ih => simp [List.replicate, countChar, ih]; omega

theorem countChar_replaceDC (d : Nat) (l : List Char) :
    countChar ':' (replaceDC (':' :: ':' :: List.replicate d ':') l) =
      countChar ':' l + d * occDC l := by
  induction l using replaceInduction with
  | h0 => rfl
  | hdc t ih =>
    rw [replaceDC_two, occDC_two, countChar_append, ih]
    simp [countChar, countChar_replicate]
    ring
  | hstep a t h ih =>
    rw [replaceDC_cons _ _ _ h, occDC_cons _ _ h]
    simp [countChar, ih]
    omega

theorem occDC_eq_zero_replaceDC (repl : List Char) {l : List Char} (h : occDC l = 0) :
    replaceDC repl l = l := by
  induction l using replaceInduction with
  | h0 => rfl
  | hdc t ih => rw [occDC_two] at h; omega
  | hstep a t hh ih =>
    rw [occDC_cons _ _ hh] at h
    rw [replaceDC_cons _ _ _ hh, ih h]

theorem splitChar_ne_nil (c : Char) (l : List Char) : splitChar c l ≠ [] := by
  cases l with
  | nil => simp [splitChar]
  | cons a t =>
    by_cases h : a = c
    · simp [splitChar, h]
    · simp only [splitChar, h, ite_false]
      rcases splitChar c t with _ | ⟨p, r⟩ <;> simp

theorem splitChar_cons_sep (c : Char) (t : List Char) :
    splitChar c (c :: t) = [] :: splitChar c t := by
  simp [splitChar]

theorem splitChar_cons_ne {a c : Char} (t : List Char) (h : a ≠ c) :
    splitChar c (a :: t) =
      (a :: (splitChar c t).headI) :: (splitChar c t).tail := by
  rcases hs : splitChar c t with _ | ⟨p, r⟩
  · exact absurd hs (splitChar_ne_nil c t)
  · simp [splitChar, h, hs]

theorem splitChar_length (c : Char) (l : List Char) :
    (splitChar c l).length = countChar c l + 1 := by
  induction l with
  | nil => rfl
  | cons a t ih =>
    by_cases h : a = c
    · subst h
      simp [splitChar_cons_sep, countChar, ih]
      omega
    · rw [splitChar_cons_ne t h]
      rcases hs : splitChar c t with _ | ⟨p, r⟩
      · exact absurd hs (splitChar_ne_nil c t)
      · rw [hs] at ih
        simp [countChar, h] at ih ⊢
        omega

theorem joinChar_splitChar (c : Char) (l : List Char) :
    joinChar c (splitChar c l) = l := by
  induction l with
  | nil => rfl
  | cons a t ih =>
    by_cases h : a = c
    · rw [h, splitChar_cons_sep]
      rcases hs : splitChar c t with _ | ⟨p, r⟩
      · exact absurd hs (splitChar_ne_nil c t)
      · rw [hs] at ih
        simpa [joinChar, h] using ih
    · rw [splitChar_cons_ne t h]
      rcases hs : splitChar c t with _ | ⟨p, r⟩
      · exact absurd hs (splitChar_ne_nil c t)
      · rw [hs] at ih
        cases r with
        | nil => simpa [joinChar] using ih
        | cons q r2 => simpa [joinChar] using ih

theorem not_mem_of_mem_splitChar {c : Char} {l : List Char} {p : List Char}
    (hp : p ∈ splitChar c l) : c ∉ p := by
  induction l generalizing p with
  | nil =>
    simp [splitChar] at hp
    simp [hp]
  | cons a t ih =>
    by_cases h : a = c
    · rw [h, splitChar_cons_sep] at hp
      rcases List.mem_cons.mp hp with hp | hp
      · simp [hp]
      · exact ih hp
    · rw [splitChar_cons_ne t h] at hp
      rcases hs : splitChar c t with _ | ⟨q, r⟩
      · exact absurd hs (splitChar_ne_nil c t)
      · rw [hs] at hp
        simp only [List.headI, List.tail, List.mem_cons] at hp
        rcases hp with hp | hp
        · subst hp
          intro hmem
          rcases List.mem_cons.mp hmem with h1 | h1
          · exact h h1.symm
          · exact ih (by rw [hs]; exact List.mem_cons_self q r) h1
        · exact ih (by rw [hs]; exact List.mem_cons_of_mem q hp)

theorem joinChar_cons (c : Char) (p : List Char) {ps : List (List Char)} (h : ps ≠ []) :
    joinChar c (p :: ps) = p ++ c :: joinChar c ps := by
  cases ps with
  | nil => exact absurd rfl h
  | cons q r => rfl

theorem splitChar_of_not_mem {c : Char} {l : List Char} (h : c ∉ l) :
    splitChar c l = [l] := by
  induction l with
  | nil => rfl
  | cons a t ih =>
    have ha : a ≠ c := fun he => h (by simp [he])
    rw [splitChar_cons_ne t ha, ih (fun hm => h (List.mem_cons_of_mem a hm))]
    rfl

theorem splitChar_group_append {c : Char} {p : List Char} (h : c ∉ p) (l : List Char) :
    splitChar c (p ++ c :: l) = p :: splitChar c l := by
  induction p with
  | nil => simpa using splitChar_cons_sep c l
  | cons a q ih =>
    have ha : a ≠ c := fun he => h (by simp [he])
    have hq : c ∉ q := fun hm => h (List.mem_cons_of_mem a hm)
    rw [List.cons_append, splitChar_cons_ne _ ha, ih hq]
    rfl

theorem splitChar_joinChar {c : Char} {ps : List (List Char)} (hne : ps ≠ [])
    (h : ∀ p ∈ ps, c ∉ p) : splitChar c (joinChar c ps) = ps := by
  induction ps with
  | nil => exact absurd rfl hne
  | cons p r ih =>
    cases r with
    | nil => exact splitChar_of_not_mem (h p (List.mem_cons_self p []))
    | cons q r2 =>
      rw [joinChar_cons c p (by simp)]
      rw [splitChar_group_append (h p (List.mem_cons_self p _))]
      rw [ih (by simp) (fun x hx => h x (List.mem_cons_of_mem p hx))]

theorem mem_joinChar {c x : Char} {ps : List (List Char)} (hx : x ∈ joinChar c ps) :
    x = c ∨ ∃ p ∈ ps, x ∈ p := by
  induction ps with
  | nil => simp [joinChar] at hx
  | cons p r ih =>
    cases r with
    | nil =>
      right
      exact ⟨p, List.mem_cons_self p [], hx⟩
    | cons q r2 =>
      rw [joinChar_cons c p (by simp)] at hx
      rcases List.mem_append.mp hx with h1 | h1
      · exact Or.inr ⟨p, List.mem_cons_self p _, h1⟩
      · rcases List.mem_cons.mp h1 with h2 | h2
        · exact Or.inl h2
        · rcases ih h2 with h3 | ⟨g, hg, hxg⟩
          · exact Or.inl h3
          · exact Or.inr ⟨g, List.mem_cons_of_mem p hg, hxg⟩

theorem joinChar_head {c : Char} {p : List Char} (ps : List (List Char)) (h : p ≠ []) :
    (joinChar c (p :: ps)).head? = p.head? := by
  cases ps with
  | nil => rfl
  | cons q r =>
    rw [joinChar_cons c p (by simp)]
    cases p with
    | nil => exact absurd rfl h
    | cons a t => rfl

theorem occDC_colonFree_append {g : List Char} (h : ∀ x ∈ g, x ≠ ':') (l : List Char) :
    occDC (g ++ l) = occDC l := by
  induction g with
  | nil => rfl
  | cons a t ih =>
    have ha : a ≠ ':' := h a (List.mem_cons_self a t)
    rw [List.cons_append, occDC_cons a _ (fun hc => ha hc.1)]
    exact ih (fun x hx => h x (List.mem_cons_of_mem a hx))


theorem head?_join_ne_colon {A : List (List Char)} (hA : colonGroups A) (hne : A ≠ [])
    (l : List Char) : ((joinChar ':' A ++ l).head? = some ':') → False := by
  intro hc
  cases A with
  | nil => exact hne rfl
  | cons p r =>
    obtain ⟨hp, hpf⟩ := hA p (List.mem_cons_self p r)
    cases p with
    | nil => exact hp rfl
    | cons a t =>
      have hji : ∃ rest, joinChar ':' ((a :: t) :: r) = (a :: t) ++ rest := by
        cases r with
        | nil => exact ⟨[], by simp [joinChar]⟩
        | cons q r2 =>
          exact ⟨':' :: joinChar ':' (q :: r2), by rw [joinChar_cons ':' _ (by simp)]⟩
      obtain ⟨rest, hrest⟩ := hji
      rw [hrest] at hc
      simp only [List.cons_append, List.head?_cons, Option.some.injEq] at hc
      exact hpf a (List.mem_cons_self a t) hc

theorem occDC_join_groups_append {A : List (List Char)} (hA : colonGroups A)
    (l : List Char) : occDC (joinChar ':' A ++ l) = occDC l := by
  induction A with
  | nil => rfl
  | cons p r ih =>
    obtain ⟨hp, hpf⟩ := hA p (List.mem_cons_self p r)
    have hr : colonGroups r := fun x hx => hA x (List.mem_cons_of_mem p hx)
    cases r with
    | nil =>
      exact occDC_colonFree_append hpf l
    | cons q r2 =>
      rw [joinChar_cons ':' p (by simp), List.append_assoc, List.cons_append]
      rw [occDC_colonFree_append hpf]
      rw [occDC_cons ':' _ ?_]
      · exact ih hr
      · rintro ⟨-, hhead⟩
        exact head?_join_ne_colon hr (by simp) l hhead

theorem occDC_join_groups {A : List (List Char)} (hA : colonGroups A) :
    occDC (joinChar ':' A) = 0 := by
  have := occDC_join_groups_append hA []
  simpa using this

theorem joinChar_append (c : Char) {A B : List (List Char)} (hA : A ≠ []) (hB : B ≠ []) :
    joinChar c (A ++ B) = joinChar c A ++ c :: joinChar c B := by
  induction A with
  | nil => exact absurd rfl hA
  | cons p r ih =>
    cases r with
    | nil =>
      cases B with
      | nil => exact absurd rfl hB
      | cons q s => simp [joinChar, joinChar_cons]
    | cons q r2 =>
      rw [List.cons_append, joinChar_cons c p (by simp), joinChar_cons c p (by simp),
        ih (by simp)]
      simp

theorem occDC_shape_leading {B : List (List Char)} (hB : colonGroups B) (hne : B ≠ []) :
    occDC (joinChar ':' ([] :: [] :: B)) = 1 := by
  rw [joinChar_cons ':' [] (by simp), joinChar_cons ':' [] hne]
  simp only [List.nil_append]
  rw [occDC_two, occDC_join_groups hB]

theorem occDC_shape_trailing {A : List (List Char)} (hA : colonGroups A) (hne : A ≠ []) :
    occDC (joinChar ':' (A ++ [[], []])) = 1 := by
  rw [joinChar_append ':' hne (by simp)]
  have : joinChar ':' ([[], []] : List (List Char)) = [':'] := rfl
  rw [this]
  rw [show joinChar ':' A ++ ':' :: [':'] = joinChar ':' A ++ ([':', ':'] ++ []) from by simp]
  rw [← List.append_assoc]
  rw [show joinChar ':' A ++ [':', ':'] ++ [] = joinChar ':' A ++ ([':', ':'] ++ []) from by simp]
  rw [occDC_join_groups_append hA]
  rfl

theorem occDC_shape_middle {A B : List (List Char)} (hA : colonGroups A)
    (hB : colonGroups B) (hneA : A ≠ []) (hneB : B ≠ []) :
    occDC (joinChar ':' (A ++ [] :: B)) = 1 := by
  rw [joinChar_append ':' hneA (by simp)]
  rw [joinChar_cons ':' [] hneB]
  simp only [List.nil_append]
  rw [show joinChar ':' A ++ ':' :: ':' :: joinChar ':' B =
    joinChar ':' A ++ (':' :: ':' :: joinChar ':' B) from rfl]
  rw [occDC_join_groups_append hA]
  rw [occDC_two, occDC_join_groups hB]

theorem occDC_shape_dcOnly : occDC (joinChar ':' [[], [], []]) = 1 := rfl

theorem isHexDigit_bounds {c : Char} (h : isHexDigit c = true) :
    (48 ≤ c.toNat ∧ c.toNat ≤ 57) ∨ (97 ≤ c.toNat ∧ c.toNat ≤ 102) ∨
    (65 ≤ c.toNat ∧ c.toNat ≤ 70) := by
  unfold isHexDigit at h
  simp only [Bool.or_eq_true, Bool.and_eq_true, decide_eq_true_eq] at h
  tauto

theorem hexVal_lt {c : Char} (h : isHexDigit c = true) : hexVal c < 16 := by
  have hb := isHexDigit_bounds h
  unfold hexVal
  split_ifs with h1 h2 <;>
    simp only [Bool.and_eq_true, decide_eq_true_eq] at * <;> omega

theorem isHexDigit_ne_colon {c : Char} (h : isHexDigit c = true) : c ≠ ':' := by
  intro he
  subst he
  simp [isHexDigit] at h

theorem isHexDigit_ne_dot {c : Char} (h : isHexDigit c = true) : c ≠ '.' := by
  intro he
  subst he
  simp [isHexDigit] at h

theorem isHexDigit_ne_minus {c : Char} (h : isHexDigit c = true) : c ≠ '-' := by
  intro he
  subst he
  simp [isHexDigit] at h

theorem isHexDigit_ne_plus {c : Char} (h : isHexDigit c = true) : c ≠ '+' := by
  intro he
  subst he
  simp [isHexDigit] at h

theorem isHexDigit_ne_x {c : Char} (h : isHexDigit c = true) : c ≠ 'x' ∧ c ≠ 'X' := by
  constructor <;> intro he <;> subst he <;> simp [isHexDigit] at h

theorem isDigit_isHexDigit {c : Char} (h : c.isDigit = true) : isHexDigit c = true := by
  have h' : 48 ≤ c.toNat ∧ c.toNat ≤ 57 := by simpa [Char.isDigit] using h
  unfold isHexDigit
  simp only [Bool.or_eq_true, Bool.and_eq_true, decide_eq_true_eq]
  exact Or.inl (Or.inl h')

theorem natToHexAux_congr : ∀ n f1 f2, n ≤ f1 → n ≤ f2 →
    natToHexAux f1 n = natToHexAux f2 n := by
  intro n
  induction n using Nat.strong_induction_on with
  | _ n ih =>
    intro f1 f2 h1 h2
    by_cases hn : n < 16
    · cases f1 with
      | zero =>
        cases f2 with
        | zero => rfl
        | succ f2 => simp [natToHexAux, hn]
      | succ f1 =>
        cases f2 with
        | zero =>
          have : n = 0 := by omega
          subst this
          simp [natToHexAux]
        | succ f2 => simp [natToHexAux, hn]
    · cases f1 with
      | zero => omega
      | succ f1 =>
        cases f2 with
        | zero => omega
        | succ f2 =>
          simp only [natToHexAux, hn, if_false]
          have hlt : n / 16 < n := Nat.div_lt_self (by omega) (by omega)
          rw [ih (n / 16) hlt f1 f2 (by omega) (by omega)]

theorem natToHex_eq (n : Nat) :
    natToHex n = if n < 16 then [hexChar n] else natToHex (n / 16) ++ [hexChar (n % 16)] := by
  unfold natToHex
  cases n with
  | zero => simp [natToHexAux]
  | succ m =>
    by_cases hn : m + 1 < 16
    · simp [natToHexAux, hn]
    · simp only [natToHexAux, hn, if_false]
      have hlt : (m + 1) / 16 < m + 1 := Nat.div_lt_self (by omega) (by omega)
      rw [natToHexAux_congr ((m + 1) / 16) m ((m + 1) / 16) (by omega) le_rfl]

theorem hexVal_hexChar {v : Nat} (h : v < 16) : hexVal (hexChar v) = v := by
  interval_cases v <;> rfl

theorem isHexDigit_hexChar {v : Nat} (h : v < 16) : isHexDigit (hexChar v) = true := by
  interval_cases v <;> rfl

theorem natToHex_ne_nil (v : Nat) : natToHex v ≠ [] := by
  rw [natToHex_eq]
  split <;> simp

theorem natToHex_all_hex (v : Nat) : ∀ c ∈ natToHex v, isHexDigit c = true := by
  induction v using Nat.strong_induction_on with
  | _ v ih =>
    rw [natToHex_eq]
    split
    · intro c hc
      next h =>
        simp only [List.mem_singleton] at hc
        subst hc
        exact isHexDigit_hexChar h
    · next h =>
      intro c hc
      rcases List.mem_append.mp hc with h1 | h1
      · exact ih (v / 16) (Nat.div_lt_self (by omega) (by omega)) c h1
      · simp only [List.mem_singleton] at h1
        subst h1
        exact isHexDigit_hexChar (Nat.mod_lt _ (by omega))

theorem hexDigitsToNat_append_singleton (A : List Char) (c : Char) :
    hexDigitsToNat (A ++ [c]) = 16 * hexDigitsToNat A + hexVal c := by
  unfold hexDigitsToNat
  rw [List.foldl_append]
  simp [Nat.mul_comm]

theorem hexDigitsToNat_natToHex (v : Nat) : hexDigitsToNat (natToHex v) = v := by
  induction v using Nat.strong_induction_on with
  | _ v ih =>
    rw [natToHex_eq]
    split
    · next h =>
      show hexDigitsToNat [hexChar v] = v
      unfold hexDigitsToNat
      simp [hexVal_hexChar h]
    · next h =>
      rw [hexDigitsToNat_append_singleton,
        ih (v / 16) (Nat.div_lt_self (by omega) (by omega)),
        hexVal_hexChar (Nat.mod_lt _ (by omega))]
      omega

theorem natToHex_length_le {k : Nat} (hk : 0 < k) :
    ∀ v : Nat, v < 16 ^ k → (natToHex v).length ≤ k := by
  induction k with
  | zero => omega
  | succ k ihk =>
    intro v hv
    rw [natToHex_eq]
    split
    · simp
    · next h =>
      have hkpos : 0 < k := by
        by_contra hk0
        have : k = 0 := by omega
        subst this
        simp at hv
        omega
      have : (natToHex (v / 16)).length ≤ k := by
        refine ihk hkpos (v / 16) ?_
        have : 16 ^ (k + 1) = 16 ^ k * 16 := by ring
        rw [this] at hv
        omega
      simp only [List.length_append, List.length_singleton]
      omega

theorem hexDigitsToNat_lt (ds : List Char) (h : ∀ c ∈ ds, isHexDigit c = true) :
    hexDigitsToNat ds < 16 ^ ds.length := by
  suffices haux : ∀ acc, List.foldl (fun a c => a * 16 + hexVal c) acc ds <
      (acc + 1) * 16 ^ ds.length by
    have := haux 0
    simpa [hexDigitsToNat] using this
  induction ds with
  | nil => intro acc; simp
  | cons c t ih =>
    intro acc
    simp only [List.foldl_cons, List.length_cons]
    have hc := hexVal_lt (h c (List.mem_cons_self c t))
    have := ih (fun x hx => h x (List.mem_cons_of_mem c hx)) (acc * 16 + hexVal c)
    calc List.foldl (fun a c => a * 16 + hexVal c) (acc * 16 + hexVal c) t
        < (acc * 16 + hexVal c + 1) * 16 ^ t.length := this
      _ ≤ ((acc + 1) * 16) * 16 ^ t.length := by
          have : acc * 16 + hexVal c + 1 ≤ (acc + 1) * 16 := by omega
          exact Nat.mul_le_mul_right _ this
      _ = (acc + 1) * 16 ^ (t.length + 1) := by ring

theorem splitChar_replicate_sep (c : Char) (k : Nat) (t : List Char) :
    splitChar c (List.replicate k c ++ t) = List.replicate k [] ++ splitChar c t := by
  induction k with
  | zero => rfl
  | succ k ih =>
    rw [List.replicate_succ, List.cons_append, splitChar_cons_sep, ih,
      List.replicate_succ (n := k) (a := ([] : List Char)), List.cons_append]

theorem splitChar_replicate (c : Char) (k : Nat) :
    splitChar c (List.replicate k c) = List.replicate (k + 1) [] := by
  have := splitChar_replicate_sep c k []
  simpa [List.replicate_succ' (n := k)] using this

theorem joinChar_ne_nil {A : List (List Char)} (hA : colonGroups A) (hne : A ≠ []) :
    joinChar ':' A ≠ [] := by
  cases A with
  | nil => exact absurd rfl hne
  | cons p r =>
    obtain ⟨hp, -⟩ := hA p (List.mem_cons_self p r)
    have hh := joinChar_head (c := ':') r hp
    intro hnil
    rw [hnil] at hh
    cases p with
    | nil => exact hp rfl
    | cons a t => simp at hh

theorem joinChar_getLast_ne_colon {A : List (List Char)} (hA : colonGroups A)
    (hne : A ≠ []) : (joinChar ':' A).getLast? ≠ some ':' := by
  induction A with
  | nil => exact absurd rfl hne
  | cons p r ih =>
    obtain ⟨hp, hpf⟩ := hA p (List.mem_cons_self p r)
    have hr : colonGroups r := fun x hx => hA x (List.mem_cons_of_mem p hx)
    cases r with
    | nil =>
      show p.getLast? ≠ some ':'
      intro hc
      obtain ⟨hne', heq⟩ := List.mem_getLast?_eq_getLast (Option.mem_def.mpr hc)
      have hmem := List.getLast_mem hne'
      rw [← heq] at hmem
      exact hpf ':' hmem rfl
    | cons q r2 =>
      rw [joinChar_cons ':' p (by simp)]
      have hJ : joinChar ':' (q :: r2) ≠ [] := joinChar_ne_nil hr (by simp)
      rcases hj : joinChar ':' (q :: r2) with _ | ⟨j, J2⟩
      · exact absurd hj hJ
      · rw [List.getLast?_append_cons, List.getLast?_cons_cons]
        rw [hj] at ih
        exact ih hr (by simp)

theorem splitChar_join_sep :
    ∀ {A : List (List Char)}, colonGroups A → A ≠ [] → ∀ t : List Char,
      splitChar ':' (joinChar ':' A ++ ':' :: t) = A ++ splitChar ':' t := by
  intro A
  induction A with
  | nil => intro _ hne; exact absurd rfl hne
  | cons p r ih =>
    intro hA _ t
    obtain ⟨hp, hpf⟩ := hA p (List.mem_cons_self p r)
    have hnotmem : ':' ∉ p := fun hm => hpf ':' hm rfl
    cases r with
    | nil =>
      show splitChar ':' (p ++ ':' :: t) = [p] ++ splitChar ':' t
      rw [splitChar_group_append hnotmem]
      rfl
    | cons q r2 =>
      rw [joinChar_cons ':' p (by simp), List.append_assoc, List.cons_append,
        splitChar_group_append hnotmem,
        ih (fun x hx => hA x (List.mem_cons_of_mem p hx)) (by simp) t]
      rfl

theorem replaceDC_clean_append (repl : List Char) :
    ∀ (A B : List Char), occDC A = 0 → A.getLast? ≠ some ':' →
      replaceDC repl (A ++ B) = A ++ replaceDC repl B := by
  intro A
  induction A with
  | nil => intro B _ _; rfl
  | cons a t ih =>
    intro B h0 hlast
    cases t with
    | nil =>
      have ha : a ≠ ':' := by
        intro he
        exact hlast (by rw [he]; rfl)
      show replaceDC repl (a :: B) = a :: replaceDC repl B
      exact replaceDC_cons repl a B (fun hc => ha hc.1)
    | cons b t2 =>
      have hnb : ¬(a = ':' ∧ b = ':') := by
        rintro ⟨rfl, rfl⟩
        rw [occDC_two] at h0
        omega
      have hstep : ¬(a = ':' ∧ ((b :: t2) ++ B).head? = some ':') := by
        rintro ⟨ha, hb⟩
        simp only [List.cons_append, List.head?_cons, Option.some.injEq] at hb
        exact hnb ⟨ha, hb⟩
      have hstep2 : ¬(a = ':' ∧ (b :: t2).head? = some ':') := by
        rintro ⟨ha, hb⟩
        simp only [List.head?_cons, Option.some.injEq] at hb
        exact hnb ⟨ha, hb⟩
      rw [occDC_cons a _ hstep2] at h0
      rw [List.cons_append, replaceDC_cons repl a _ hstep,
        ih B h0 (by rwa [List.getLast?_cons_cons] at hlast)]
      rfl

theorem dc_repl_replicate (d : Nat) :
    ':' :: ':' :: List.replicate d ':' = List.replicate (d + 2) ':' := by
  simp [List.replicate_succ]

theorem takeWhile_all {p : Char → Bool} :
    ∀ {A : List Char}, (∀ c ∈ A, p c = true) → A.takeWhile p = A := by
  intro A
  induction A with
  | nil => intro _; rfl
  | cons a t ih =>
    intro h
    rw [List.takeWhile_cons, if_pos (h a (List.mem_cons_self a t)),
      ih (fun c hc => h c (List.mem_cons_of_mem a hc))]

theorem takeWhile_append_stop {p : Char → Bool} (b : Char) (B : List Char)
    (hb : p b = false) :
    ∀ A : List Char, (∀ c ∈ A, p c = true) → (A ++ b :: B).takeWhile p = A := by
  intro A
  induction A with
  | nil =>
    intro _
    simp [List.takeWhile_cons, hb]
  | cons a t ih =>
    intro hA
    rw [List.cons_append, List.takeWhile_cons, if_pos (hA a (List.mem_cons_self a t)),
      ih (fun c hc => hA c (List.mem_cons_of_mem a hc))]

theorem isDigit_bounds {c : Char} (h : c.isDigit = true) :
    48 ≤ c.toNat ∧ c.toNat ≤ 57 := by
  simpa [Char.isDigit] using h

theorem isDigit_ne_colon {c : Char} (h : c.isDigit = true) : c ≠ ':' := by
  intro he
  subst he
  exact absurd h (by decide)

theorem isDigit_ne_minus {c : Char} (h : c.isDigit = true) : c ≠ '-' := by
  intro he
  subst he
  exact absurd h (by decide)

theorem isDigit_ne_plus {c : Char} (h : c.isDigit = true) : c ≠ '+' := by
  intro he
  subst he
  exact absurd h (by decide)

theorem stripSign_default {a : Char} (t : List Char) (h1 : a ≠ '-') (h2 : a ≠ '+') :
    stripSign (a :: t) = (false, a :: t) := by
  unfold stripSign
  split
  · next heq =>
    injection heq with hh _
    exact absurd hh h1
  · next heq =>
    injection heq with hh _
    exact absurd hh h2
  · rfl

theorem strip0x_default {a : Char} (t : List Char)
    (h : ∀ c, t.head? = some c → c ≠ 'x' ∧ c ≠ 'X') :
    strip0x (a :: t) = a :: t := by
  unfold strip0x
  split
  · next heq =>
    injection heq with h1 h2
    exact absurd rfl (h 'x' (by rw [h2]; rfl)).1
  · next heq =>
    injection heq with h1 h2
    exact absurd rfl (h 'X' (by rw [h2]; rfl)).2
  · rfl

theorem parseIntHex_run {A : List Char} (B : List Char) (hne : A ≠ [])
    (hall : ∀ c ∈ A, isHexDigit c = true)
    (hB : ∀ b, B.head? = some b → isHexDigit b = false ∧ b ≠ 'x' ∧ b ≠ 'X') :
    parseIntHex (A ++ B) = some ((hexDigitsToNat A : Nat) : Int) := by
  cases A with
  | nil => exact absurd rfl hne
  | cons a t =>
    have ha : isHexDigit a = true := hall a (List.mem_cons_self a t)
    have htw : ((a :: t) ++ B).takeWhile isHexDigit = a :: t := by
      cases B with
      | nil =>
        rw [List.append_nil]
        exact takeWhile_all hall
      | cons b B2 =>
        exact takeWhile_append_stop b B2 (hB b rfl).1 (a :: t) hall
    have hsign : stripSign ((a :: t) ++ B) = (false, (a :: t) ++ B) := by
      rw [List.cons_append]
      exact stripSign_default _ (isHexDigit_ne_minus ha) (isHexDigit_ne_plus ha)
    have h0x : strip0x ((a :: t) ++ B) = (a :: t) ++ B := by
      rw [List.cons_append]
      refine strip0x_default _ ?_
      intro c hc
      cases t with
      | nil =>
        simp only [List.nil_append] at hc
        exact ⟨(hB c hc).2.1, (hB c hc).2.2⟩
      | cons c2 t2 =>
        simp only [List.cons_append, List.head?_cons, Option.some.injEq] at hc
        rw [← hc]
        exact isHexDigit_ne_x (hall c2 (by simp))
    simp only [parseIntHex, hsign, h0x, htw]
    simp [hexDigitsToNat]

theorem parseIntHex_allHex {p : List Char} (hne : p ≠ [])
    (hall : ∀ c ∈ p, isHexDigit c = true) :
    parseIntHex p = some ((hexDigitsToNat p : Nat) : Int) := by
  have := parseIntHex_run [] hne hall (fun b hb => by simp at hb)
  simpa using this

theorem jsParseIntDec_allDigits {p : List Char} (hne : p ≠ [])
    (hall : ∀ c ∈ p, c.isDigit = true) :
    jsParseIntDec p = some ((decDigitsToNat p : Nat) : Int) := by
  cases p with
  | nil => exact absurd rfl hne
  | cons a t =>
    have ha : a.isDigit = true := hall a (List.mem_cons_self a t)
    have hsign : stripSign (a :: t) = (false, a :: t) :=
      stripSign_default _ (isDigit_ne_minus ha) (isDigit_ne_plus ha)
    simp only [jsParseIntDec, hsign, takeWhile_all hall]
    simp [decDigitsToNat]

theorem intToHex_natCast (v : Nat) : intToHex (v : Int) = natToHex v := by
  unfold intToHex
  rw [if_neg (by omega)]
  norm_num

theorem normalizePart_nil : normalizePart [] = natToHex 0 := rfl

theorem isHexGroup_facts {p : List Char} (h : isHexGroup p = true) :
    p ≠ [] ∧ p.length ≤ 4 ∧ ∀ c ∈ p, isHexDigit c = true := by
  unfold isHexGroup at h
  simp only [Bool.and_eq_true, Bool.not_eq_true', List.isEmpty_iff, decide_eq_true_eq,
    List.all_eq_true] at h
  refine ⟨?_, h.1.2, h.2⟩
  intro he
  rw [he] at h
  simp at h

theorem normalizePart_hexGroup {p : List Char} (h : isHexGroup p = true) :
    normalizePart p = natToHex (hexDigitsToNat p) ∧ hexDigitsToNat p < 65536 := by
  obtain ⟨hne, hlen, hall⟩ := isHexGroup_facts h
  constructor
  · unfold normalizePart
    rw [if_neg (by simpa [List.isEmpty_iff] using hne)]
    rw [parseIntHex_allHex hne hall]
    exact intToHex_natCast _
  · calc hexDigitsToNat p < 16 ^ p.length := hexDigitsToNat_lt p hall
      _ ≤ 16 ^ 4 := Nat.pow_le_pow_right (by norm_num) hlen
      _ = 65536 := by norm_num

theorem isV4Seg_facts {p : List Char} (h : isV4Seg p = true) :
    p ≠ [] ∧ (∀ c ∈ p, c.isDigit = true) ∧ p.length ≤ 3 ∧ decDigitsToNat p ≤ 255 := by
  unfold isV4Seg at h
  simp only [Bool.and_eq_true, Bool.or_eq_true, Bool.not_eq_true', List.isEmpty_iff,
    decide_eq_true_eq, List.all_eq_true] at h
  refine ⟨?_, h.1.1.1.2, h.1.1.2, h.2⟩
  intro he
  rw [he] at h
  simp at h

theorem isV4Quad_decomp {p : List Char} (h : isV4Quad p = true) :
    ∃ seg rest, p = seg ++ '.' :: rest ∧ seg ≠ [] ∧ (∀ c ∈ seg, c.isDigit = true) ∧
      seg.length ≤ 3 := by
  unfold isV4Quad at h
  simp only [Bool.and_eq_true, decide_eq_true_eq, List.all_eq_true] at h
  obtain ⟨hlen, hall⟩ := h
  rcases hps : splitChar '.' p with _ | ⟨s1, r⟩
  · exact absurd hps (splitChar_ne_nil '.' p)
  · rw [hps] at hlen hall
    have hr : r ≠ [] := by
      intro he
      rw [he] at hlen
      simp at hlen
    have hjoin : joinChar '.' (s1 :: r) = p := by
      rw [← hps]
      exact joinChar_splitChar '.' p
    rw [joinChar_cons '.' s1 hr] at hjoin
    obtain ⟨hs1ne, hs1d, hs1len, -⟩ := isV4Seg_facts (hall s1 (List.mem_cons_self s1 r))
    exact ⟨s1, joinChar '.' r, hjoin.symm, hs1ne, hs1d, hs1len⟩

theorem normalizePart_quad {p : List Char} (h : isV4Quad p = true) :
    ∃ v, v < 65536 ∧ normalizePart p = natToHex v := by
  obtain ⟨seg, rest, hp, hne, hdig, hlen⟩ := isV4Quad_decomp h
  have hallhex : ∀ c ∈ seg, isHexDigit c = true := fun c hc => isDigit_isHexDigit (hdig c hc)
  refine ⟨hexDigitsToNat seg, ?_, ?_⟩
  · calc hexDigitsToNat seg < 16 ^ seg.length := hexDigitsToNat_lt seg hallhex
      _ ≤ 16 ^ 3 := Nat.pow_le_pow_right (by norm_num) hlen
      _ < 65536 := by norm_num
  · subst hp
    unfold normalizePart
    rw [if_neg (by simp [List.isEmpty_iff])]
    rw [parseIntHex_run ('.' :: rest) hne hallhex
      (fun b hb => by
        simp only [List.head?_cons, Option.some.injEq] at hb
        subst hb
        exact ⟨by decide, by decide, by decide⟩)]
    exact intToHex_natCast _

theorem normalizePart_natToHex (v : Nat) : normalizePart (natToHex v) = natToHex v := by
  unfold normalizePart
  rw [if_neg (by simpa [List.isEmpty_iff] using natToHex_ne_nil v)]
  rw [parseIntHex_allHex (natToHex_ne_nil v) (natToHex_all_hex v)]
  show intToHex ((hexDigitsToNat (natToHex v) : Nat) : Int) = natToHex v
  rw [hexDigitsToNat_natToHex, intToHex_natCast]

theorem normalizePart_good {p : List Char}
    (h : p = [] ∨ isHexGroup p = true ∨ isV4Quad p = true) :
    ∃ v, v < 65536 ∧ normalizePart p = natToHex v := by
  rcases h with rfl | h | h
  · exact ⟨0, by norm_num, normalizePart_nil⟩
  · obtain ⟨heq, hlt⟩ := normalizePart_hexGroup h
    exact ⟨hexDigitsToNat p, hlt, heq⟩
  · exact normalizePart_quad h

theorem compressedGroupsOk_mem {gs : List (List Char)} (h : compressedGroupsOk gs = true) :
    ∀ g ∈ gs, isHexGroup g = true ∨ isV4Quad g = true := by
  rcases List.eq_nil_or_concat gs with rfl | ⟨front, b, rfl⟩
  · intro g hg
    simp at hg
  · unfold compressedGroupsOk at h
    rw [List.concat_eq_append] at h ⊢
    rw [List.getLast?_concat, List.dropLast_concat] at h
    simp only [Bool.and_eq_true, Bool.or_eq_true, decide_eq_true_eq, List.all_eq_true] at h
    obtain ⟨hfront, hor⟩ := h
    intro g hg
    rcases List.mem_append.mp hg with hg | hg
    · exact Or.inl (hfront g hg)
    · rw [List.mem_singleton] at hg
      subst hg
      rcases hor with ⟨hq, -⟩ | ⟨hh, -⟩
      · exact Or.inr hq
      · exact Or.inl hh

theorem v4_foldr_length :
    ∀ parts : List (List Char), (∀ q ∈ parts, isV4Seg q = true) →
      ∃ bs, List.foldr
          (fun p acc => acc.bind fun bytes =>
            match jsParseIntDec p with
            | some v => if 0 ≤ v && v ≤ 255 then some (v.toNat :: bytes) else none
            | none => none)
          (some []) parts = some bs ∧ bs.length = parts.length := by
  intro parts
  induction parts with
  | nil => exact fun _ => ⟨[], rfl, rfl⟩
  | cons q t ih =>
    intro hall
    obtain ⟨bs, hbs, hlen⟩ := ih (fun x hx => hall x (List.mem_cons_of_mem q hx))
    obtain ⟨hne, hdig, -, hle⟩ := isV4Seg_facts (hall q (List.mem_cons_self q t))
    rw [List.foldr_cons, hbs]
    rw [jsParseIntDec_allDigits hne hdig]
    simp only [Option.some_bind]
    rw [if_pos]
    · refine ⟨_, rfl, ?_⟩
      simp [hlen]
    · simp only [Bool.and_eq_true, decide_eq_true_eq]
      constructor
      · exact_mod_cast Nat.zero_le _
      · exact_mod_cast hle

theorem getIPV4Bytes_length {a : String} (h : isIPv4 a = true) :
    ∃ bs, getIPV4Bytes a = some bs ∧ bs.length = 4 := by
  unfold isIPv4 isV4Quad at h
  simp only [Bool.and_eq_true, decide_eq_true_eq, List.all_eq_true] at h
  obtain ⟨hlen, hall⟩ := h
  unfold getIPV4Bytes
  obtain ⟨bs, hbs, hblen⟩ := v4_foldr_length (splitChar '.' a.data) hall
  exact ⟨bs, hbs, by rw [hblen, hlen]⟩

theorem hexPairsToBytes_length4 {l : List Char} (h4 : l.length = 4)
    (hall : ∀ c ∈ l, isHexDigit c = true) : (hexPairsToBytes l).length = 2 := by
  rcases l with _ | ⟨a, _ | ⟨b, _ | ⟨c, _ | ⟨d, _ | ⟨e, r⟩⟩⟩⟩⟩
  · simp at h4
  · simp at h4
  · simp at h4
  · simp at h4
  · have ha := hall a (by simp)
    have hb := hall b (by simp)
    have hc := hall c (by simp)
    have hd := hall d (by simp)
    unfold hexPairsToBytes
    rw [if_pos (by simp [ha, hb])]
    unfold hexPairsToBytes
    rw [if_pos (by simp [hc, hd])]
    rfl
  · simp at h4

theorem ipv6PartToBytes_natToHex {v : Nat} (hv : v < 65536) :
    ∃ bs, ipv6PartToBytes (natToHex v) = some bs ∧ bs.length = 2 := by
  have h16 : (16 : Nat) ^ 4 = 65536 := by norm_num
  have hlen : (natToHex v).length ≤ 4 :=
    natToHex_length_le (by norm_num) v (by rw [h16]; exact hv)
  unfold ipv6PartToBytes
  rw [if_neg (by simp only [decide_eq_true_eq]; omega)]
  refine ⟨_, rfl, ?_⟩
  refine hexPairsToBytes_length4 ?_ ?_
  · simp only [List.length_append, List.length_replicate]
    omega
  · intro c hc
    rcases List.mem_append.mp hc with hc | hc
    · rw [List.eq_of_mem_replicate hc]
      decide
    · exact natToHex_all_hex v c hc

theorem isHexGroup_natToHex {v : Nat} (hv : v < 65536) :
    isHexGroup (natToHex v) = true := by
  have h16 : (16 : Nat) ^ 4 = 65536 := by norm_num
  have hlen : (natToHex v).length ≤ 4 :=
    natToHex_length_le (by norm_num) v (by rw [h16]; exact hv)
  unfold isHexGroup
  simp only [Bool.and_eq_true, Bool.not_eq_true', List.isEmpty_iff, decide_eq_true_eq,
    List.all_eq_true]
  exact ⟨⟨List.isEmpty_eq_false.mpr (natToHex_ne_nil v), hlen⟩,
    fun c hc => natToHex_all_hex v c hc⟩

theorem bor_elim {a b : Bool} (h : (a || b) = true) : a = true ∨ b = true := by
  cases a
  · exact Or.inr h
  · exact Or.inl rfl

theorem bor3_elim {a b c : Bool} (h : (a || b || c) = true) :
    a = true ∨ b = true ∨ c = true := by
  rcases bor_elim h with h2 | h2
  · rcases bor_elim h2 with h3 | h3
    · exact Or.inl h3
    · exact Or.inr (Or.inl h3)
  · exact Or.inr (Or.inr h2)

theorem bor4_elim {a b c d : Bool} (h : (a || b || c || d) = true) :
    a = true ∨ b = true ∨ c = true ∨ d = true := by
  rcases bor_elim h with h2 | h2
  · rcases bor3_elim h2 with h3 | h3 | h3
    · exact Or.inl h3
    · exact Or.inr (Or.inl h3)
    · exact Or.inr (Or.inr (Or.inl h3))
  · exact Or.inr (Or.inr (Or.inr h2))

theorem bor_intro_left {a b : Bool} (h : a = true) : (a || b) = true := by
  cases a
  · exact absurd h (by simp)
  · rfl

theorem band_intro {a b : Bool} (h1 : a = true) (h2 : b = true) : (a && b) = true := by
  cases a
  · exact absurd h1 (by simp)
  · exact h2

theorem mem_joinChar_of_mem {c x : Char} {ps : List (List Char)} {p : List Char}
    (hp : p ∈ ps) (hx : x ∈ p) : x ∈ joinChar c ps := by
  induction ps with
  | nil => simp at hp
  | cons q r ih =>
    rcases List.mem_cons.mp hp with rfl | hp2
    · cases r with
      | nil => exact hx
      | cons s r2 =>
        rw [joinChar_cons c p (by simp)]
        exact List.mem_append.mpr (Or.inl hx)
    · cases r with
      | nil => simp at hp2
      | cons s r2 =>
        rw [joinChar_cons c q (by simp)]
        exact List.mem_append.mpr (Or.inr (List.mem_cons_of_mem c (ih hp2)))

theorem split_full_bare (d : Nat) :
    splitChar ':' (replaceDC (':' :: ':' :: List.replicate d ':') [':', ':']) =
      List.replicate (d + 3) [] := by
  rw [replaceDC_two]
  rw [show replaceDC (':' :: ':' :: List.replicate d ':') [] = [] from rfl, List.append_nil]
  rw [dc_repl_replicate, splitChar_replicate]

theorem split_full_leading {rest : List (List Char)} (hg : colonGroups rest)
    (hne : rest ≠ []) (d : Nat) :
    splitChar ':' (replaceDC (':' :: ':' :: List.replicate d ':')
      (':' :: ':' :: joinChar ':' rest)) = List.replicate (d + 2) [] ++ rest := by
  rw [replaceDC_two, occDC_eq_zero_replaceDC _ (occDC_join_groups hg), dc_repl_replicate,
    splitChar_replicate_sep,
    splitChar_joinChar hne (fun p hp hm => (hg p hp).2 ':' hm rfl)]

theorem split_full_trailing {front : List (List Char)} (hg : colonGroups front)
    (hne : front ≠ []) (d : Nat) :
    splitChar ':' (replaceDC (':' :: ':' :: List.replicate d ':')
      (joinChar ':' front ++ [':', ':'])) = front ++ List.replicate (d + 2) [] := by
  rw [replaceDC_clean_append _ _ _ (occDC_join_groups hg) (joinChar_getLast_ne_colon hg hne),
    replaceDC_two,
    show replaceDC (':' :: ':' :: List.replicate d ':') [] = [] from rfl, List.append_nil,
    splitChar_join_sep hg hne,
    show (':' :: List.replicate d ':') = List.replicate (d + 1) ':' from
      (List.replicate_succ ':' d).symm,
    splitChar_replicate]

theorem split_full_middle {front back : List (List Char)} (hgf : colonGroups front)
    (hgb : colonGroups back) (hnef : front ≠ []) (hneb : back ≠ []) (d : Nat) :
    splitChar ':' (replaceDC (':' :: ':' :: List.replicate d ':')
      (joinChar ':' front ++ ':' :: ':' :: joinChar ':' back)) =
      front ++ List.replicate (d + 1) [] ++ back := by
  rw [replaceDC_clean_append _ _ _ (occDC_join_groups hgf)
    (joinChar_getLast_ne_colon hgf hnef)]
  rw [replaceDC_two, occDC_eq_zero_replaceDC _ (occDC_join_groups hgb)]
  rw [show (':' :: ':' :: List.replicate d ':') ++ joinChar ':' back =
      ':' :: (List.replicate (d + 1) ':' ++ joinChar ':' back) from by
    simp [List.replicate_succ]]
  rw [splitChar_join_sep hgf hnef, splitChar_replicate_sep,
    splitChar_joinChar hneb (fun p hp hm => (hgb p hp).2 ':' hm rfl), List.append_assoc]

theorem canonical_conclude {n : String} {parts : List (List Char)}
    (hdata : n.data = joinChar ':' (parts.map normalizePart))
    (hlen : parts.length = 8)
    (hgood : ∀ p ∈ parts, p = [] ∨ isHexGroup p = true ∨ isV4Quad p = true) :
    ∃ gs : List (List Char), n.data = joinChar ':' gs ∧ gs.length = 8 ∧
      ∀ g ∈ gs, ∃ v, v < 65536 ∧ g = natToHex v := by
  refine ⟨parts.map normalizePart, hdata, by rw [List.length_map, hlen], ?_⟩
  intro g hg
  obtain ⟨p, hp, rfl⟩ := List.mem_map.mp hg
  exact normalizePart_good (hgood p hp)

theorem canonical_of_valid {x n : String} (hx : isIPv6 x = true)
    (hnf : embeddedV4FullForm x = false) (hn : normalizeIPv6Address x = some n) :
    ∃ gs : List (List Char), n.data = joinChar ':' gs ∧ gs.length = 8 ∧
      ∀ g ∈ gs, ∃ v, v < 65536 ∧ g = natToHex v := by
  have hx6 := hx
  simp only [normalizeIPv6Address] at hn
  by_cases hcc : 7 < countChar ':' x.data
  · rw [if_pos hcc] at hn
    exact Option.noConfusion hn
  · rw [if_neg hcc] at hn
    have hdata : n.data = joinChar ':'
        ((splitChar ':' (replaceDC (':' :: ':' :: List.replicate (7 - countChar ':' x.data) ':')
          x.data)).map normalizePart) := by
      rw [← Option.some.inj hn]
    unfold isIPv6 at hx
    have hlen_ps := splitChar_length ':' x.data
    have hjoin := joinChar_splitChar ':' x.data
    have hcf : ∀ p ∈ splitChar ':' x.data, ':' ∉ p :=
      fun p hp => not_mem_of_mem_splitChar hp
    have hne_ps := splitChar_ne_nil ':' x.data
    generalize hgen : splitChar ':' x.data = ps at hx hlen_ps hjoin hcf hne_ps
    unfold isIPv6Parts at hx
    rcases bor3_elim hx with hx | hx | hx
    · -- eight hexadecimal groups, no `::`
      simp only [Bool.and_eq_true, decide_eq_true_eq, List.all_eq_true] at hx
      obtain ⟨hl8, hall⟩ := hx
      have hcg : colonGroups ps := fun p hp =>
        ⟨(isHexGroup_facts (hall p hp)).1, fun ch hch he => hcf p hp (he ▸ hch)⟩
      have hocc : occDC x.data = 0 := by
        rw [← hjoin]
        exact occDC_join_groups hcg
      rw [occDC_eq_zero_replaceDC _ hocc, hgen] at hdata
      exact canonical_conclude hdata hl8 (fun p hp => Or.inr (Or.inl (hall p hp)))
    · -- six groups plus a trailing dotted quad: excluded by the hypothesis
      exfalso
      rcases List.eq_nil_or_concat ps with rfl | ⟨front, q, hcat⟩
      · exact hne_ps rfl
      · rw [List.concat_eq_append] at hcat
        subst hcat
        rw [List.getLast?_concat] at hx
        simp only [Bool.and_eq_true, decide_eq_true_eq, List.all_eq_true] at hx
        obtain ⟨⟨hl7, htake⟩, hquad⟩ := hx
        have hfl : front.length = 6 := by
          simp only [List.length_append, List.length_singleton] at hl7
          omega
        have htake6 : (front ++ [q]).take 6 = front := by
          rw [← hfl]
          exact List.take_left front [q]
        rw [htake6] at htake
        have hqne : q ≠ [] := by
          rintro rfl
          exact absurd hquad (by decide)
        have hcg : colonGroups (front ++ [q]) := by
          intro p hp
          refine ⟨?_, fun ch hch he => hcf p hp (he ▸ hch)⟩
          rcases List.mem_append.mp hp with h | h
          · exact (isHexGroup_facts (htake p h)).1
          · rw [List.mem_singleton] at h
            exact h ▸ hqne
        have hocc : occDC x.data = 0 := by
          rw [← hjoin]
          exact occDC_join_groups hcg
        have hdq : '.' ∈ q := by
          by_contra hq
          unfold isV4Quad at hquad
          rw [splitChar_of_not_mem hq] at hquad
          simp at hquad
        have hdot : hasDot x = true := by
          unfold hasDot
          have hmem : '.' ∈ x.data := by
            rw [← hjoin]
            exact mem_joinChar_of_mem (List.mem_append.mpr (Or.inr (by simp))) hdq
          simpa using hmem
        have : embeddedV4FullForm x = true := by
          unfold embeddedV4FullForm
          simp [hx6, hdot, hocc]
        rw [this] at hnf
        exact Bool.noConfusion hnf
    · -- compressed forms
      unfold compressedParts at hx
      rcases bor4_elim hx with hx | hx | hx | hx
      · -- bare "::"
        unfold cpBare at hx
        have hps : ps = [[], [], []] := eq_of_beq hx
        subst hps
        have hcc2 : countChar ':' x.data = 2 := by
          simp at hlen_ps
          omega
        have hxdata : x.data = [':', ':'] := by
          rw [← hjoin]
          rfl
        rw [hcc2, hxdata] at hdata
        rw [show (7 : Nat) - 2 = 5 from rfl, split_full_bare 5] at hdata
        refine canonical_conclude hdata (by simp) ?_
        intro p hp
        exact Or.inl (List.eq_of_mem_replicate hp)
      · -- leading "::"
        unfold cpLeading at hx
        rcases ps with _ | ⟨p1, ps1⟩
        · simp at hx
        · rcases p1 with _ | ⟨c1, p1'⟩
          · rcases ps1 with _ | ⟨p2, ps2⟩
            · simp at hx
            · rcases p2 with _ | ⟨c2, p2'⟩
              · -- ps = [] :: [] :: ps2
                simp only [Bool.and_eq_true, Bool.not_eq_true', List.all_eq_true] at hx
                obtain ⟨⟨hne2, hall2⟩, hcgo⟩ := hx
                have hne2' : ps2 ≠ [] := by
                  intro he
                  rw [he] at hne2
                  simp at hne2
                have hcg : colonGroups ps2 := by
                  intro p hp
                  refine ⟨?_, fun ch hch he =>
                    hcf p (List.mem_cons_of_mem _ (List.mem_cons_of_mem _ hp)) (he ▸ hch)⟩
                  have := hall2 p hp
                  simp only [Bool.not_eq_true', List.isEmpty_eq_false] at this
                  exact this
                have hccv : countChar ':' x.data = ps2.length + 1 := by
                  simp at hlen_ps
                  omega
                have hxdata : x.data = ':' :: ':' :: joinChar ':' ps2 := by
                  rw [← hjoin, joinChar_cons ':' [] (by simp), joinChar_cons ':' [] hne2']
                  rfl
                rw [hccv, hxdata, split_full_leading hcg hne2'] at hdata
                refine canonical_conclude hdata ?_ ?_
                · rw [List.length_append, List.length_replicate]
                  rw [hccv] at hcc
                  omega
                · intro p hp
                  rcases List.mem_append.mp hp with h | h
                  · exact Or.inl (List.eq_of_mem_replicate h)
                  · exact Or.inr (compressedGroupsOk_mem hcgo p h)
              · simp at hx
          · simp at hx
      · -- trailing "::"
        unfold cpTrailing at hx
        rcases hrev : ps.reverse with _ | ⟨r1, rev1⟩
        · rw [hrev] at hx
          simp at hx
        · rw [hrev] at hx
          rcases r1 with _ | ⟨c1, r1'⟩
          · rcases rev1 with _ | ⟨r2, rev2⟩
            · simp at hx
            · rcases r2 with _ | ⟨c2, r2'⟩
              · -- ps.reverse = [] :: [] :: rev2
                simp only [Bool.and_eq_true, Bool.not_eq_true', List.all_eq_true,
                  decide_eq_true_eq] at hx
                obtain ⟨⟨⟨hne2, hall2⟩, hhex2⟩, hle7⟩ := hx
                have hps_eq : ps = rev2.reverse ++ [[], []] := by
                  have h2 := congrArg List.reverse hrev
                  rw [List.reverse_reverse] at h2
                  rw [h2]
                  simp
                have hfne : rev2.reverse ≠ [] := by
                  simp only [ne_eq, List.reverse_eq_nil_iff]
                  intro he
                  rw [he] at hne2
                  simp at hne2
                have hcg : colonGroups rev2.reverse := by
                  intro p hp
                  refine ⟨?_, fun ch hch he =>
                    hcf p (by rw [hps_eq]; exact List.mem_append.mpr (Or.inl hp)) (he ▸ hch)⟩
                  exact (isHexGroup_facts (hhex2 p hp)).1
                have hccv : countChar ':' x.data = rev2.reverse.length + 1 := by
                  rw [hps_eq] at hlen_ps
                  simp at hlen_ps
                  simp
                  omega
                have hxdata : x.data = joinChar ':' rev2.reverse ++ [':', ':'] := by
                  rw [← hjoin, hps_eq, joinChar_append ':' hfne (by simp)]
                  rfl
                rw [hccv, hxdata, split_full_trailing hcg hfne] at hdata
                refine canonical_conclude hdata ?_ ?_
                · rw [List.length_append, List.length_replicate]
                  rw [hccv] at hcc
                  omega
                · intro p hp
                  rcases List.mem_append.mp hp with h | h
                  · exact Or.inr (Or.inl (hhex2 p h))
                  · exact Or.inl (List.eq_of_mem_replicate h)
              · simp at hx
          · simp at hx
      · -- inner "::"
        unfold cpMiddle at hx
        rcases hdw : ps.dropWhile (fun p => !p.isEmpty) with _ | ⟨h1, back⟩
        · rw [hdw] at hx
          simp at hx
        · rw [hdw] at hx
          rcases h1 with _ | ⟨c1, h1'⟩
          · -- dropWhile = [] :: back
            simp only [Bool.and_eq_true, Bool.not_eq_true', List.all_eq_true] at hx
            obtain ⟨⟨⟨hfne', hbne'⟩, hball⟩, hcgo⟩ := hx
            have hps_eq : ps = ps.takeWhile (fun p => !p.isEmpty) ++ [] :: back := by
              rw [← hdw]
              exact (List.takeWhile_append_dropWhile _ _).symm
            have hfne : ps.takeWhile (fun p => !p.isEmpty) ≠ [] := by
              intro he
              rw [he] at hfne'
              simp at hfne'
            have hbne : back ≠ [] := by
              intro he
              rw [he] at hbne'
              simp at hbne'
            have hcgf : colonGroups (ps.takeWhile (fun p => !p.isEmpty)) := by
              intro p hp
              refine ⟨?_, fun ch hch he =>
                hcf p (by rw [hps_eq]; exact List.mem_append.mpr (Or.inl hp)) (he ▸ hch)⟩
              have := List.mem_takeWhile_imp hp
              simp only [Bool.not_eq_true', List.isEmpty_eq_false] at this
              exact this
            have hcgb : colonGroups back := by
              intro p hp
              refine ⟨?_, fun ch hch he =>
                hcf p (by
                  rw [hps_eq]
                  exact List.mem_append.mpr (Or.inr (List.mem_cons_of_mem _ hp))) (he ▸ hch)⟩
              have := hball p hp
              simp only [Bool.not_eq_true', List.isEmpty_eq_false] at this
              exact this
            have hccv : countChar ':' x.data =
                (ps.takeWhile (fun p => !p.isEmpty)).length + back.length := by
              rw [hps_eq] at hlen_ps
              simp at hlen_ps
              omega
            have hxdata : x.data = joinChar ':' (ps.takeWhile (fun p => !p.isEmpty)) ++
                ':' :: ':' :: joinChar ':' back := by
              have hj := congrArg (joinChar ':') hps_eq
              rw [joinChar_append ':' hfne (by simp), joinChar_cons ':' [] hbne] at hj
              rw [← hjoin, hj]
              rfl
            rw [hccv, hxdata, split_full_middle hcgf hcgb hfne hbne] at hdata
            refine canonical_conclude hdata ?_ ?_
            · rw [List.length_append, List.length_append, List.length_replicate]
              rw [hccv] at hcc
              omega
            · intro p hp
              rcases List.mem_append.mp hp with h | h
              · rcases List.mem_append.mp h with h2 | h2
                · exact Or.inr (compressedGroupsOk_mem hcgo p
                    (List.mem_append.mpr (Or.inl h2)))
                · exact Or.inl (List.eq_of_mem_replicate h2)
              · exact Or.inr (compressedGroupsOk_mem hcgo p
                  (List.mem_append.mpr (Or.inr h)))
          · simp at hx

theorem canonical_split {n : String} {gs : List (List Char)}
    (hdata : n.data = joinChar ':' gs) (hlen : gs.length = 8)
    (hg : ∀ g ∈ gs, ∃ v, v < 65536 ∧ g = natToHex v) :
    splitChar ':' n.data = gs := by
  have hgs_ne : gs ≠ [] := by
    intro he
    rw [he] at hlen
    simp at hlen
  have hhex : ∀ g ∈ gs, isHexGroup g = true := by
    intro g hgm
    obtain ⟨v, hv, rfl⟩ := hg g hgm
    exact isHexGroup_natToHex hv
  have hnotmem : ∀ g ∈ gs, ':' ∉ g := by
    intro g hgm hm
    exact absurd ((isHexGroup_facts (hhex g hgm)).2.2 ':' hm) (by decide)
  rw [hdata]
  exact splitChar_joinChar hgs_ne hnotmem

theorem takeDigits13Rev_digits {l ds r : List Char}
    (h : takeDigits13Rev l = some (ds, r)) : ∀ c ∈ ds, c.isDigit = true := by
  simp only [takeDigits13Rev] at h
  split at h
  · exact Option.noConfusion h
  · injection Option.some.inj h with h1 h2
    subst h1
    subst h2
    intro c hc
    exact List.mem_takeWhile_imp hc

theorem takeDigits13Rev_drop {l ds r : List Char}
    (h : takeDigits13Rev l = some (ds, r)) : ∀ c ∈ r, c ∈ l := by
  simp only [takeDigits13Rev] at h
  split at h
  · exact Option.noConfusion h
  · injection Option.some.inj h with h1 h2
    subst h1
    subst h2
    intro c hc
    exact List.mem_of_mem_drop hc

theorem hybridCapture_none_of_no_dot {s : String} (h : '.' ∉ s.data) :
    hybridCapture s = none := by
  unfold hybridCapture
  rcases htd : takeDigits13Rev s.data.reverse with _ | ⟨d4, r⟩
  · rfl
  · have hr : ∀ c ∈ r, c ∈ s.data := by
      intro c hc
      exact List.mem_reverse.mp (takeDigits13Rev_drop htd c hc)
    dsimp only
    rcases r with _ | ⟨c, r2⟩
    · rfl
    · split
      · next r3 heq =>
        exfalso
        have hcdot : c = '.' := (List.cons.inj heq).1
        exact h (hr '.' (hcdot ▸ List.mem_cons_self c r2))
      · rfl

theorem canonical_to_fixed {n : String} {gs : List (List Char)}
    (hdata : n.data = joinChar ':' gs) (hlen : gs.length = 8)
    (hg : ∀ g ∈ gs, ∃ v, v < 65536 ∧ g = natToHex v) :
    isIPv6 n = true ∧ hybridCapture n = none ∧ normalizeIPv6Address n = some n := by
  have hgs_ne : gs ≠ [] := by
    intro he
    rw [he] at hlen
    simp at hlen
  have hhex : ∀ g ∈ gs, isHexGroup g = true := by
    intro g hgm
    obtain ⟨v, hv, rfl⟩ := hg g hgm
    exact isHexGroup_natToHex hv
  have hcg : colonGroups gs := fun g hgm =>
    ⟨(isHexGroup_facts (hhex g hgm)).1,
      fun ch hch he =>
        absurd (he ▸ (isHexGroup_facts (hhex g hgm)).2.2 ch hch) (by decide)⟩
  have hsplit : splitChar ':' n.data = gs := canonical_split hdata hlen hg
  have hnodot : '.' ∉ n.data := by
    rw [hdata]
    intro hmem
    rcases mem_joinChar hmem with he | ⟨g, hgm, hin⟩
    · exact absurd he (by decide)
    · exact absurd ((isHexGroup_facts (hhex g hgm)).2.2 '.' hin) (by decide)
  refine ⟨?_, hybridCapture_none_of_no_dot hnodot, ?_⟩
  · unfold isIPv6
    rw [hsplit]
    unfold isIPv6Parts
    apply bor_intro_left
    apply bor_intro_left
    refine band_intro (by simp [hlen]) ?_
    simp only [List.all_eq_true]
    exact hhex
  · have hcc : countChar ':' n.data = 7 := by
      have := splitChar_length ':' n.data
      rw [hsplit, hlen] at this
      omega
    simp only [normalizeIPv6Address]
    rw [if_neg (by rw [hcc]; omega), hcc]
    simp only [Nat.sub_self, List.replicate_zero]
    have hocc : occDC n.data = 0 := by
      rw [hdata]
      exact occDC_join_groups hcg
    rw [occDC_eq_zero_replaceDC _ hocc, hsplit]
    have hmap : gs.map normalizePart = gs := by
      have hid : ∀ g ∈ gs, normalizePart g = id g := by
        intro g hgm
        obtain ⟨v, hv, rfl⟩ := hg g hgm
        exact normalizePart_natToHex v
      rw [List.map_congr_left hid, List.map_id]
    rw [hmap, ← hdata]

theorem ipv6_foldr_length :
    ∀ gs : List (List Char),
      (∀ g ∈ gs, ∃ bs, ipv6PartToBytes g = some bs ∧ bs.length = 2) →
      ∃ out, List.foldr
          (fun p acc => acc.bind fun bytes => (ipv6PartToBytes p).map (· ++ bytes))
          (some []) gs = some out ∧ out.length = 2 * gs.length := by
  intro gs
  induction gs with
  | nil => exact fun _ => ⟨[], rfl, rfl⟩
  | cons g t ih =>
    intro hall
    obtain ⟨out, hout, hlen⟩ := ih (fun x hx => hall x (List.mem_cons_of_mem g hx))
    obtain ⟨bs, hbs, hbl⟩ := hall g (List.mem_cons_self g t)
    refine ⟨bs ++ out, ?_, ?_⟩
    · rw [List.foldr_cons, hout, Option.some_bind, hbs, Option.map_some']
    · rw [List.length_append, hbl, hlen, List.length_cons]
      ring

theorem getIPV6Bytes_of_canonical {a n : String} {gs : List (List Char)}
    (hn : normalizeIPv6Address a = some n) (hdata : n.data = joinChar ':' gs)
    (hlen : gs.length = 8) (hg : ∀ g ∈ gs, ∃ v, v < 65536 ∧ g = natToHex v) :
    ∃ bs, getIPV6Bytes a = some bs ∧ bs.length = 16 := by
  unfold getIPV6Bytes
  rw [hn, Option.some_bind, canonical_split hdata hlen hg]
  obtain ⟨out, hout, holen⟩ := ipv6_foldr_length gs (fun g hgm => by
    obtain ⟨v, hv, rfl⟩ := hg g hgm
    exact ipv6PartToBytes_natToHex hv)
  exact ⟨out, hout, by rw [holen, hlen]⟩

theorem isIPv6Parts_singleton (l : List Char) : isIPv6Parts [l] = false := by
  cases l with
  | nil => decide
  | cons c l' => rfl

theorem hybridCapture_some_facts {s v : String} (h : hybridCapture s = some v) :
    v.data ≠ [] ∧ ':' ∉ v.data := by
  unfold hybridCapture at h
  rcases h4 : takeDigits13Rev s.data.reverse with _ | ⟨d4, r4⟩ <;> rw [h4] at h
  · exact Option.noConfusion h
  · dsimp only at h
    split at h
    · next r3x =>
      rcases h3 : takeDigits13Rev r3x with _ | ⟨d3, r3⟩ <;> rw [h3] at h
      · exact Option.noConfusion h
      · dsimp only at h
        split at h
        · next r2x =>
          rcases h2 : takeDigits13Rev r2x with _ | ⟨d2, r2⟩ <;> rw [h2] at h
          · exact Option.noConfusion h
          · dsimp only at h
            split at h
            · next r1x =>
              rcases h1 : takeDigits13Rev r1x with _ | ⟨d1, r1⟩ <;> rw [h1] at h
              · exact Option.noConfusion h
              · dsimp only at h
                split at h
                · -- full match: v is the reassembled dotted quad
                  have hv : v.data = d1.reverse ++ '.' :: d2.reverse ++ '.' ::
                      d3.reverse ++ '.' :: d4.reverse := by
                    rw [← Option.some.inj h]
                  have hd1 := takeDigits13Rev_digits h1
                  have hd2 := takeDigits13Rev_digits h2
                  have hd3 := takeDigits13Rev_digits h3
                  have hd4 := takeDigits13Rev_digits h4
                  constructor
                  · rw [hv]
                    intro he
                    simp at he
                  · rw [hv]
                    intro hmem
                    rcases List.mem_append.mp hmem with hm | hm
                    · rcases List.mem_append.mp hm with hm | hm
                      · rcases List.mem_append.mp hm with hm | hm
                        · exact absurd (hd1 ':' (List.mem_reverse.mp hm)) (by decide)
                        · rcases List.mem_cons.mp hm with hm | hm
                          · exact absurd hm (by decide)
                          · exact absurd (hd2 ':' (List.mem_reverse.mp hm)) (by decide)
                      · rcases List.mem_cons.mp hm with hm | hm
                        · exact absurd hm (by decide)
                        · exact absurd (hd3 ':' (List.mem_reverse.mp hm)) (by decide)
                    · rcases List.mem_cons.mp hm with hm | hm
                      · exact absurd hm (by decide)
                      · exact absurd (hd4 ':' (List.mem_reverse.mp hm)) (by decide)
                · exact Option.noConfusion h
            · exact Option.noConfusion h
        · exact Option.noConfusion h
    · exact Option.noConfusion h

theorem getNetwork_ipv4 {a : String} (h : getNetwork a = some Network.NET_IPV4) :
    isIPv4 a = true := by
  unfold getNetwork at h
  rcases hl : isLocal a with _ | b <;> rw [hl] at h
  · exact Option.noConfusion h
  · cases b
    · by_cases hp : isPrivate a = true
      · rw [if_pos hp] at h
        exact absurd (Option.some.inj h) (by decide)
      · rw [if_neg hp] at h
        by_cases h4 : isIPv4 a = true
        · exact h4
        · rw [if_neg h4] at h
          by_cases h6 : isIPv6 a = true
          · rw [if_pos h6] at h
            exact absurd (Option.some.inj h) (by decide)
          · rw [if_neg h6] at h
            exact absurd (Option.some.inj h) (by decide)
    · exact absurd (Option.some.inj h) (by decide)

theorem getNetwork_ipv6 {a : String} (h : getNetwork a = some Network.NET_IPV6) :
    isIPv6 a = true ∧ ∃ n, normalizeIPv6Address a = some n := by
  unfold getNetwork at h
  rcases hl : isLocal a with _ | b <;> rw [hl] at h
  · exact Option.noConfusion h
  · cases b
    · by_cases hp : isPrivate a = true
      · rw [if_pos hp] at h
        exact absurd (Option.some.inj h) (by decide)
      · rw [if_neg hp] at h
        by_cases h4 : isIPv4 a = true
        · rw [if_pos h4] at h
          exact absurd (Option.some.inj h) (by decide)
        · rw [if_neg h4] at h
          by_cases h6 : isIPv6 a = true
          · refine ⟨h6, ?_⟩
            unfold isLocal at hl
            rw [if_neg (by simp [h4])] at hl
            rcases hn : normalizeIPv6Address a with _ | n <;> rw [hn] at hl
            · exact Option.noConfusion hl
            · exact ⟨n, rfl⟩
          · rw [if_neg h6] at h
            exact absurd (Option.some.inj h) (by decide)
    · exact absurd (Option.some.inj h) (by decide)

/-- C8 counterexample: `normalizeAddress` is not idempotent.  The valid
full-form embedded-quad address `"1:2:3:4:5:6:1.2.3.4"` normalizes to the
7-group IPv6-labelled string `"1:2:3:4:5:6:1"`, but running `normalizeAddress`
on that output reclassifies it as IPv4 (pass-through), a different result. -/
theorem claim_C8_counterexample :
    normalizeAddress "1:2:3:4:5:6:1.2.3.4" =
      some ⟨PROTOCOL_IPV6, "1:2:3:4:5:6:1"⟩ ∧
    normalizeAddress "1:2:3:4:5:6:1" =
      some ⟨PROTOCOL_IPV4, "1:2:3:4:5:6:1"⟩ :=
  ⟨by decide, by decide⟩

/-- C8 (amended): for every address accepted by `normalizeAddress` that is
not a full-form (uncompressed) embedded-dotted-quad IPv6 address,
`normalizeAddress` applied to the address component of the result returns
that same result (fixed point); full-form embedded-quad IPv6 addresses are
the exception, as the counterexample shows. -/
theorem claim_C8 (x : String) (r : NormalizedAddress)
    (hx : normalizeAddress x = some r) (hff : fullFormEmbeddedV4 x = false) :
    normalizeAddress r.address = some r := by
  unfold normalizeAddress at hx
  by_cases h6 : isIPv6 x = true
  · rw [if_pos h6] at hx
    rcases hcap : hybridCapture x with _ | v4 <;> rw [hcap] at hx
    · rcases hni : normalizeIPv6Address x with _ | n <;> rw [hni] at hx
      · exact Option.noConfusion hx
      · have hr : r = ⟨PROTOCOL_IPV6, n⟩ := (Option.some.inj hx).symm
        subst hr
        have hemb : embeddedV4FullForm x = false := by
          unfold fullFormEmbeddedV4 at hff
          rw [hcap] at hff
          simpa using hff
        obtain ⟨gs, hdata, hlen, hg⟩ := canonical_of_valid h6 hemb hni
        obtain ⟨h1, h2, h3⟩ := canonical_to_fixed hdata hlen hg
        show normalizeAddress n = some ⟨PROTOCOL_IPV6, n⟩
        unfold normalizeAddress
        rw [if_pos h1, h2, h3]
        rfl
    · have hr : r = ⟨PROTOCOL_IPV4, v4⟩ := (Option.some.inj hx).symm
      subst hr
      obtain ⟨hvne, hvnc⟩ := hybridCapture_some_facts hcap
      show normalizeAddress v4 = some ⟨PROTOCOL_IPV4, v4⟩
      unfold normalizeAddress
      have h6' : isIPv6 v4 = false := by
        unfold isIPv6
        rw [splitChar_of_not_mem hvnc]
        exact isIPv6Parts_singleton _
      rw [if_neg (by simp [h6'])]
  · rw [if_neg h6] at hx
    have hr : r = ⟨PROTOCOL_IPV4, x⟩ := (Option.some.inj hx).symm
    subst hr
    show normalizeAddress x = some ⟨PROTOCOL_IPV4, x⟩
    unfold normalizeAddress
    rw [if_neg h6]

/-- Witness for C8: at the concrete accepted address `"::1"` (no embedded
dotted quad), the theorem yields the fixed-point equation for the normalized
output `"0:0:0:0:0:0:0:1"`. -/
theorem claim_C8_witness :
    normalizeAddress (NormalizedAddress.mk PROTOCOL_IPV6 "0:0:0:0:0:0:0:1").address =
      some ⟨PROTOCOL_IPV6, "0:0:0:0:0:0:0:1"⟩ :=
  claim_C8 "::1" ⟨PROTOCOL_IPV6, "0:0:0:0:0:0:0:1"⟩ (by decide) (by decide)

/-- C4 counterexample: the full-form embedded-quad address
`"1:2:3:4:5:6:1.2.3.4"` is classified IPv6, but its address-byte string has
14 bytes (seven 2-byte groups), not the 16 bytes the claim asserts. -/
theorem claim_C4_counterexample :
    getNetwork "1:2:3:4:5:6:1.2.3.4" = some Network.NET_IPV6 ∧
    getIPV6Bytes "1:2:3:4:5:6:1.2.3.4" =
      some [0, 1, 0, 2, 0, 3, 0, 4, 0, 5, 0, 6, 0, 1] ∧
    (getIPV6Bytes "1:2:3:4:5:6:1.2.3.4").map List.length = some 14 :=
  ⟨by decide, by decide, by decide⟩

/-- C4 (amended): with the 32-bit secret check passed, `getBucketId` reduces
the first 4 digest bytes of SHA-256 over
`secret(4 bytes big-endian) ++ [network code] (++ addressBytes)` modulo
`bucketCount`, so every successful result is in `[0, bucketCount)` for
positive `bucketCount`; LOCAL and PRIVATE addresses omit the address bytes
(same network, secret and count give the same bucket); an OTHER address fails
with the unsupported-address error; IPv4 address bytes are 4 bytes; IPv6
address bytes are 16 bytes provided the address does not embed a dotted quad
in full (uncompressed) form — for such addresses the byte string is shorter,
as the counterexample shows. -/
theorem claim_C4 (sha256 : List Nat → List Nat) (secret : Nat) (peerType : PeerType)
    (bucketCount : Nat) :
    (∀ targetAddress b, 0 < bucketCount →
      getBucketId sha256 secret targetAddress peerType bucketCount = Except.ok b →
      b < bucketCount) ∧
    (∀ a1 a2 net, secret < 2 ^ 32 →
      (net = Network.NET_LOCAL ∨ net = Network.NET_PRIVATE) →
      getNetwork a1 = some net → getNetwork a2 = some net →
      getBucketId sha256 secret a1 peerType bucketCount =
        Except.ok (readUInt32BE (sha256 (toBytes4BE secret ++ [net.code])) % bucketCount) ∧
      getBucketId sha256 secret a1 peerType bucketCount =
        getBucketId sha256 secret a2 peerType bucketCount) ∧
    (∀ a, secret < 2 ^ 32 → getNetwork a = some Network.NET_OTHER →
      getBucketId sha256 secret a peerType bucketCount =
        Except.error BucketError.unsupportedAddress) ∧
    (∀ a, secret < 2 ^ 32 → getNetwork a = some Network.NET_IPV4 →
      ∃ addressBytes, getIPV4Bytes a = some addressBytes ∧ addressBytes.length = 4 ∧
        getBucketId sha256 secret a peerType bucketCount = Except.ok (readUInt32BE
          (sha256 (toBytes4BE secret ++ [Network.NET_IPV4.code] ++ addressBytes)) %
            bucketCount)) ∧
    (∀ a, secret < 2 ^ 32 → getNetwork a = some Network.NET_IPV6 →
      embeddedV4FullForm a = false →
      ∃ addressBytes, getIPV6Bytes a = some addressBytes ∧ addressBytes.length = 16 ∧
        getBucketId sha256 secret a peerType bucketCount = Except.ok (readUInt32BE
          (sha256 (toBytes4BE secret ++ [Network.NET_IPV6.code] ++ addressBytes)) %
            bucketCount)) := by
  refine ⟨?_, ?_, ?_, ?_, ?_⟩
  · -- range
    intro ta b hbc hok
    simp only [getBucketId] at hok
    split at hok
    · exact Except.noConfusion hok
    · split at hok
      · exact Except.noConfusion hok
      · split at hok
        · exact Except.noConfusion hok
        · split at hok
          · rw [← Except.ok.inj hok]
            exact Nat.mod_lt _ hbc
          · split at hok
            · exact Except.noConfusion hok
            · rw [← Except.ok.inj hok]
              exact Nat.mod_lt _ hbc
  · -- LOCAL/PRIVATE: address bytes omitted
    intro a1 a2 net hsec hnet hg1 hg2
    have hform : ∀ a, getNetwork a = some net →
        getBucketId sha256 secret a peerType bucketCount =
          Except.ok (readUInt32BE (sha256 (toBytes4BE secret ++ [net.code])) %
            bucketCount) := by
      intro a hga
      simp only [getBucketId]
      rw [if_neg (by simp only [decide_eq_true_eq]; omega), hga]
      dsimp only
      rw [if_neg (by rcases hnet with rfl | rfl <;> decide), if_pos hnet]
    exact ⟨hform a1 hg1, (hform a1 hg1).trans (hform a2 hg2).symm⟩
  · -- OTHER: unsupported-address error
    intro a hsec hga
    simp only [getBucketId]
    rw [if_neg (by simp only [decide_eq_true_eq]; omega), hga]
    dsimp only
    rw [if_pos rfl]
  · -- IPv4: 4 address bytes
    intro a hsec hga
    obtain ⟨bs, hbs, hbl⟩ := getIPV4Bytes_length (getNetwork_ipv4 hga)
    refine ⟨bs, hbs, hbl, ?_⟩
    simp only [getBucketId]
    rw [if_neg (by simp only [decide_eq_true_eq]; omega), hga]
    dsimp only
    rw [if_neg (by decide), if_neg (by decide), if_neg (by decide), hbs]
  · -- IPv6: 16 address bytes off the embedded-quad family
    intro a hsec hga hemb
    obtain ⟨h6, n, hn⟩ := getNetwork_ipv6 hga
    obtain ⟨gs, hdata, hlen, hg⟩ := canonical_of_valid h6 hemb hn
    obtain ⟨bs, hbs, hbl⟩ := getIPV6Bytes_of_canonical hn hdata hlen hg
    refine ⟨bs, hbs, hbl, ?_⟩
    simp only [getBucketId]
    rw [if_neg (by simp only [decide_eq_true_eq]; omega), hga]
    dsimp only
    rw [if_neg (by decide), if_neg (by decide), if_pos rfl, hbs]

/-- Witness for C4: at a concrete SHA-256 stand-in, secret 0 and bucket count
10, the unsupported address `"abc"` (classified OTHER) makes `getBucketId`
fail with the unsupported-address error. -/
theorem claim_C4_witness :
    getBucketId (fun _ => List.replicate 32 1) 0 "abc" PeerType.newPeer 10 =
      Except.error BucketError.unsupportedAddress :=
  (claim_C4 (fun _ => List.replicate 32 1) 0 PeerType.newPeer 10).2.2.1 "abc"
    (by norm_num) (by decide)

end Lp2p
